import Mathlib

/-!
# Verification of the feature-diff core of `.github/workflows/diff-shps.py`

This file embeds the algorithmic core of the shapefile-diffing script:

* the sequence aligner it calls (`difflib.SequenceMatcher` from the CPython
  standard library, invoked with `isjunk=None` and therefore with the default
  `autojunk=True`),
* the geometry normalizer (`unspooled_coordinates` plus the per-feature
  canonicalization performed inside `load_features`, whose coordinate rounding
  comes from GDAL's `COORDINATE_PRECISION:0` export option and whose bounding
  box comes from `int(...)` truncation of `GetEnvelope()`),
* the diff-classifier loop over `sorted(matcher.get_opcodes())`,
* `combined_bboxes` and the cairo render block (fixed 400x400 canvas
  transform, draw order, per-kind drawing commands).

Python dictionaries used only through `get`-with-default are modelled as total
functions defaulting to `0`; GeoJSON coordinate arrays as a rose tree of
rational numbers; fallible paths return `Except`.
-/

namespace DiffShps

/-! ## Sequence aligner: difflib.SequenceMatcher

The script builds `difflib.SequenceMatcher(isjunk=None, a=base_data,
b=head_data)`.  With `isjunk=None` the junk set `bjunk` stays empty, while the
default `autojunk=True` still removes "popular" elements from the `b2j`
occurrence index whenever `len(b) >= 200`.  The definitions below follow
CPython's `difflib.py` line by line. -/

/-- Opcode tags of `get_opcodes`.  The constructors are listed in the
alphabetical order of the Python tag strings `"delete" < "equal" < "insert" <
"replace"`, which is the order `sorted` uses on the opcode tuples. -/
inductive Tag
  | delete
  | equal
  | insert
  | replace
deriving DecidableEq, Repr

/-- Rank of a tag in the alphabetical order of its Python string. -/
def tagRank : Tag → Nat
  | .delete => 0
  | .equal => 1
  | .insert => 2
  | .replace => 3

/-- One opcode `(tag, i1, i2, j1, j2)` of `get_opcodes`. -/
structure Opcode where
  tag : Tag
  i1 : Nat
  i2 : Nat
  j1 : Nat
  j2 : Nat
deriving DecidableEq, Repr

variable {α : Type} [DecidableEq α]

/-- The ascending list of indices `j` with `b[j] = x`: the occurrence lists
that `SequenceMatcher.__chain_b` accumulates into the dictionary `b2j`. -/
def b2jAll (b : List α) (x : α) : List Nat :=
  (List.range b.length).filter (fun j => decide (b.get? j = some x))

/-- The autojunk "popular element" test of `__chain_b`: with `autojunk=True`
and `n = len(b) >= 200`, every element occurring more than `n // 100 + 1`
times is dropped from `b2j`. -/
def isPopular (b : List α) (x : α) : Bool :=
  decide (200 ≤ b.length) && decide (b.length / 100 + 1 < (b2jAll b x).length)

/-- The `b2j` index after `__chain_b` purged popular elements (the junk purge
is vacuous because the script passes `isjunk=None`). -/
def b2j (b : List α) (x : α) : List Nat :=
  if isPopular b x then [] else b2jAll b x

/-- Inner `for j in b2j.get(a[i], nothing)` loop of `find_longest_match`,
building `newj2len` and updating the running best match.  `j2lenOld` is the
previous iteration's dictionary (read-only in Python as `j2lenget`), modelled
as a total function defaulting to `0` exactly like `j2len.get(j-1, 0)`; the
key `-1` that Python looks up when `j = 0` is never present, hence the
explicit `j = 0` case.  `continue` on `j < blo` skips, `break` on `j >= bhi`
returns. -/
def innerLoop (i blo bhi : Nat) (j2lenOld : Nat → Nat) :
    List Nat → (Nat → Nat) → Nat × Nat × Nat → (Nat → Nat) × (Nat × Nat × Nat)
  | [], acc, best => (acc, best)
  | j :: js, acc, best =>
    if j < blo then innerLoop i blo bhi j2lenOld js acc best
    else if bhi ≤ j then (acc, best)
    else
      let k := (if j = 0 then 0 else j2lenOld (j - 1)) + 1
      let acc' : Nat → Nat := fun j' => if j' = j then k else acc j'
      let best' := if best.2.2 < k then (i + 1 - k, j + 1 - k, k) else best
      innerLoop i blo bhi j2lenOld js acc' best'

/-- Outer `for i in range(alo, ahi)` loop of `find_longest_match`; the list
argument is the list of `i` values still to process.  Each iteration starts a
fresh `newj2len = {}` and replaces `j2len` with it afterwards. -/
def outerLoop (a : List α) (bj : α → List Nat) (blo bhi : Nat) :
    List Nat → (Nat → Nat) → Nat × Nat × Nat → Nat × Nat × Nat
  | [], _, best => best
  | i :: is, j2len, best =>
    let js := match a.get? i with
      | some x => bj x
      | none => []
    let r := innerLoop i blo bhi j2len js (fun _ => 0) best
    outerLoop a bj blo bhi is r.1 r.2

/-- The two backward `while` extension loops of `find_longest_match` (the
non-junk one with `wantJunk = false`, the junk one with `wantJunk = true`):
while `besti > alo and bestj > blo and isbjunk(b[bestj-1]) == wantJunk and
a[besti-1] == b[bestj-1]`, grow the match one element to the left.  Each step
decreases `besti`, so a fuel of `besti` always suffices. -/
def extendBack (a b : List α) (junk : α → Bool) (wantJunk : Bool)
    (alo blo : Nat) : Nat → Nat × Nat × Nat → Nat × Nat × Nat
  | 0, best => best
  | fuel + 1, (bi, bjj, bs) =>
    if alo < bi ∧ blo < bjj then
      match a.get? (bi - 1), b.get? (bjj - 1) with
      | some x, some y =>
        if junk y = wantJunk ∧ x = y then
          extendBack a b junk wantJunk alo blo fuel (bi - 1, bjj - 1, bs + 1)
        else (bi, bjj, bs)
      | _, _ => (bi, bjj, bs)
    else (bi, bjj, bs)

/-- The two forward `while` extension loops of `find_longest_match`: while
`besti+bestsize < ahi and bestj+bestsize < bhi and isbjunk(b[bestj+bestsize])
== wantJunk and a[besti+bestsize] == b[bestj+bestsize]`, grow the match to the
right.  Each step increases `bestsize` toward `ahi - besti`, so a fuel of
`ahi - (besti + bestsize)` always suffices. -/
def extendFwd (a b : List α) (junk : α → Bool) (wantJunk : Bool)
    (ahi bhi : Nat) : Nat → Nat × Nat × Nat → Nat × Nat × Nat
  | 0, best => best
  | fuel + 1, (bi, bjj, bs) =>
    if bi + bs < ahi ∧ bjj + bs < bhi then
      match a.get? (bi + bs), b.get? (bjj + bs) with
      | some x, some y =>
        if junk y = wantJunk ∧ x = y then
          extendFwd a b junk wantJunk ahi bhi fuel (bi, bjj, bs + 1)
        else (bi, bjj, bs)
      | _, _ => (bi, bjj, bs)
    else (bi, bjj, bs)

/-- `find_longest_match(alo, ahi, blo, bhi)`: the `j2len` main loop followed by
the non-junk and junk extension loops.  The script's matcher has an empty
`bjunk`, so it instantiates `junk` with `fun _ => false`. -/
def findLongestMatch (a b : List α) (bj : α → List Nat) (junk : α → Bool)
    (alo ahi blo bhi : Nat) : Nat × Nat × Nat :=
  let b0 := outerLoop a bj blo bhi (List.range' alo (ahi - alo)) (fun _ => 0) (alo, blo, 0)
  let b1 := extendBack a b junk false alo blo b0.1 b0
  let b2 := extendFwd a b junk false ahi bhi (ahi - (b1.1 + b1.2.2)) b1
  let b3 := extendBack a b junk true alo blo b2.1 b2
  extendFwd a b junk true ahi bhi (ahi - (b3.1 + b3.2.2)) b3

/-- Recursive interval splitting of `get_matching_blocks`.  CPython drains a
LIFO queue and sorts the collected blocks afterwards; every block of the left
sub-interval starts strictly before the current match and every block of the
right one strictly after it, so the sorted queue output equals this in-order
traversal.  The fuel bounds the recursion depth; every recursive interval is
strictly shorter than its parent, so the `a.length + 1` supplied below never
runs out. -/
def matchBlocksRec (a b : List α) (bj : α → List Nat) (junk : α → Bool) :
    Nat → Nat → Nat → Nat → Nat → List (Nat × Nat × Nat)
  | 0, _, _, _, _ => []
  | fuel + 1, alo, ahi, blo, bhi =>
    let m := findLongestMatch a b bj junk alo ahi blo bhi
    if m.2.2 = 0 then []
    else
      (if alo < m.1 ∧ blo < m.2.1 then
          matchBlocksRec a b bj junk fuel alo m.1 blo m.2.1
        else [])
        ++ [m]
        ++ (if m.1 + m.2.2 < ahi ∧ m.2.1 + m.2.2 < bhi then
              matchBlocksRec a b bj junk fuel (m.1 + m.2.2) ahi (m.2.1 + m.2.2) bhi
            else [])

/-- The adjacent-block merging pass at the end of `get_matching_blocks`,
with accumulator `(i1, j1, k1)` initialized to `(0, 0, 0)`. -/
def mergeBlocks : Nat × Nat × Nat → List (Nat × Nat × Nat) → List (Nat × Nat × Nat)
  | (i1, j1, k1), [] => if k1 ≠ 0 then [(i1, j1, k1)] else []
  | (i1, j1, k1), (i2, j2, k2) :: rest =>
    if i1 + k1 = i2 ∧ j1 + k1 = j2 then mergeBlocks (i1, j1, k1 + k2) rest
    else (if k1 ≠ 0 then [(i1, j1, k1)] else []) ++ mergeBlocks (i2, j2, k2) rest

/-- `get_matching_blocks`, ending with the sentinel `(len(a), len(b), 0)`. -/
def getMatchingBlocks (a b : List α) : List (Nat × Nat × Nat) :=
  mergeBlocks (0, 0, 0)
      (matchBlocksRec a b (b2j b) (fun _ => false) (a.length + 1) 0 a.length 0 b.length)
    ++ [(a.length, b.length, 0)]

/-- The opcode-emitting loop of `get_opcodes`, carrying the cursor `(i, j)`. -/
def opcodesLoop : Nat → Nat → List (Nat × Nat × Nat) → List Opcode
  | _, _, [] => []
  | i, j, (ai, bjj, size) :: rest =>
    (if i < ai ∧ j < bjj then [⟨.replace, i, ai, j, bjj⟩]
      else if i < ai then [⟨.delete, i, ai, j, bjj⟩]
      else if j < bjj then [⟨.insert, i, ai, j, bjj⟩]
      else [])
      ++ (if size ≠ 0 then [⟨.equal, ai, ai + size, bjj, bjj + size⟩] else [])
      ++ opcodesLoop (ai + size) (bjj + size) rest

/-- `matcher.get_opcodes()`. -/
def getOpcodes (a b : List α) : List Opcode :=
  opcodesLoop 0 0 (getMatchingBlocks a b)

/-- The Python sort key of one opcode tuple `(tag, i1, i2, j1, j2)`: tuples
compare lexicographically, strings alphabetically (captured by `tagRank`). -/
def opKey (o : Opcode) : Lex (Nat × Lex (Nat × Lex (Nat × Lex (Nat × Nat)))) :=
  toLex (tagRank o.tag, toLex (o.i1, toLex (o.i2, toLex (o.j1, o.j2))))

/-- The order in which `sorted` arranges opcodes. -/
def opLE (o1 o2 : Opcode) : Prop :=
  opKey o1 ≤ opKey o2

instance : DecidableRel opLE := fun o1 o2 =>
  inferInstanceAs (Decidable (opKey o1 ≤ opKey o2))

instance : IsTotal Opcode opLE :=
  ⟨fun o1 o2 => le_total (opKey o1) (opKey o2)⟩

instance : IsTrans Opcode opLE :=
  ⟨fun _ _ _ h1 h2 => le_trans h1 h2⟩

/-- Python's `sorted` on the opcode list (a stable sort by the tuple order;
opcodes with equal keys are equal tuples, so any stable sort produces the same
list). -/
def pySorted (ops : List Opcode) : List Opcode :=
  List.insertionSort opLE ops

/-! ## Data model

Canonical values as built by `load_features`: a `Feature` is a sorted property
tuple plus a `Geometry`; a `Geometry` carries the GeoJSON type string, the
truncated envelope quadruple `(minX, maxX, minY, maxY)` and the unspooled
coordinate tuples.  After GDAL's `COORDINATE_PRECISION:0` export every stored
coordinate is a whole number, so canonical points carry `ℤ × ℤ`. -/

/-- A GeoJSON property value (`map<string, string|number|bool>`). -/
inductive PropValue
  | str (s : String)
  | num (q : ℚ)
  | boolean (b : Bool)
deriving DecidableEq, Repr

/-- A canonical coordinate pair, whole-valued after `COORDINATE_PRECISION:0`. -/
abbrev CPoint := ℤ × ℤ

/-- The unspooled coordinate tuples of `unspooled_coordinates`, one nesting
depth per geometry kind: `point` for `Point`, `seq` for `MultiPoint` /
`LineString`, `seq2` for `MultiLineString` / `Polygon`, `seq3` for
`MultiPolygon`. -/
inductive Coords
  | point (p : CPoint)
  | seq (ps : List CPoint)
  | seq2 (pss : List (List CPoint))
  | seq3 (psss : List (List (List CPoint)))
deriving DecidableEq, Repr

/-- The `Geometry` named tuple of the script. -/
structure Geometry where
  type : String
  bbox : ℤ × ℤ × ℤ × ℤ
  coordinates : Coords
deriving DecidableEq, Repr

/-- The `Feature` named tuple of the script. -/
structure Feature where
  properties : List (String × PropValue)
  geometry : Geometry
deriving DecidableEq, Repr

/-! ## Geometry normalizer -/

/-- Raw GeoJSON coordinate arrays: arbitrarily nested arrays of numbers, as
handed to `unspooled_coordinates` by `feature.ExportToJson`. -/
inductive RawCoords
  | num (q : ℚ)
  | arr (xs : List RawCoords)

/-- A raw geometry record: GeoJSON type tag plus nested coordinate arrays. -/
structure RawGeometry where
  type : String
  coordinates : RawCoords

/-- Python `int()` on a real number: truncation toward zero.  This is what
`tuple(map(int, geometry.GetEnvelope()))` applies to the envelope. -/
def pyInt (q : ℚ) : ℤ :=
  if 0 ≤ q then ⌊q⌋ else ⌈q⌉

/-- One raw `[x, y]` position, rounded to 0 decimal digits: the script exports
with `COORDINATE_PRECISION:0`, so each numeric coordinate is rounded to the
nearest whole number before `unspooled_coordinates` consumes it.  Anything but
a two-number array is a malformed position (Python would raise from
`Point(*xy)` on a wrong arity; GDAL never emits the other shapes). -/
def asXY : RawCoords → Option CPoint
  | .arr [.num x, .num y] => some (round x, round y)
  | _ => none

/-- A raw array of positions. -/
def asXYList : RawCoords → Option (List CPoint)
  | .arr xs => xs.mapM asXY
  | _ => none

/-- A raw array of arrays of positions. -/
def asXYList2 : RawCoords → Option (List (List CPoint))
  | .arr xs => xs.mapM asXYList
  | _ => none

/-- A raw array of arrays of arrays of positions. -/
def asXYList3 : RawCoords → Option (List (List (List CPoint)))
  | .arr xs => xs.mapM asXYList2
  | _ => none

/-- Errors of the normalize path: the `raise ValueError(f"Unknown geometry
type: ...")` of `unspooled_coordinates`, or a coordinate array whose nesting
does not match the declared type. -/
inductive NormError
  | unknownType (t : String)
  | badShape
deriving DecidableEq, Repr

/-- `unspooled_coordinates(geometry)`: dispatch on the type tag in the
script's order, with its `raise ValueError` for any other tag. -/
def unspooled_coordinates (g : RawGeometry) : Except NormError Coords :=
  if g.type = "Point" then
    match asXY g.coordinates with
    | some p => .ok (.point p)
    | none => .error .badShape
  else if g.type = "MultiPoint" ∨ g.type = "LineString" then
    match asXYList g.coordinates with
    | some ps => .ok (.seq ps)
    | none => .error .badShape
  else if g.type = "MultiLineString" ∨ g.type = "Polygon" then
    match asXYList2 g.coordinates with
    | some pss => .ok (.seq2 pss)
    | none => .error .badShape
  else if g.type = "MultiPolygon" then
    match asXYList3 g.coordinates with
    | some psss => .ok (.seq3 psss)
    | none => .error .badShape
  else .error (.unknownType g.type)

mutual

/-- All raw `[x, y]` positions of a coordinate tree, in order: the coordinate
values over which OGR's `GetEnvelope()` takes its minima and maxima. -/
def collectXY : RawCoords → List (ℚ × ℚ)
  | .num _ => []
  | .arr [.num x, .num y] => [(x, y)]
  | .arr xs => collectXYList xs

/-- `collectXY` over a list of subtrees. -/
def collectXYList : List RawCoords → List (ℚ × ℚ)
  | [] => []
  | c :: cs => collectXY c ++ collectXYList cs

end

/-- `geometry.GetEnvelope()`: `(minX, maxX, minY, maxY)` over all raw
positions, `(0, 0, 0, 0)` for an empty geometry. -/
def envelope (rc : RawCoords) : ℚ × ℚ × ℚ × ℚ :=
  match collectXY rc with
  | [] => (0, 0, 0, 0)
  | (x, y) :: rest =>
    rest.foldl
      (fun e p => (min e.1 p.1, max e.2.1 p.1, min e.2.2.1 p.2, max e.2.2.2 p.2))
      (x, x, y, y)

/-- The per-feature geometry canonicalization inside `load_features`: the
GeoJSON type string, the envelope truncated componentwise by `int()`, and the
unspooled (rounded) coordinates. -/
def normalizeGeometry (g : RawGeometry) : Except NormError Geometry :=
  match unspooled_coordinates g with
  | .error e => .error e
  | .ok cs =>
    let e := envelope g.coordinates
    .ok ⟨g.type, (pyInt e.1, pyInt e.2.1, pyInt e.2.2.1, pyInt e.2.2.2), cs⟩

/-- The full feature canonicalization of `load_features`:
`tuple(sorted(geojson['properties'].items()))` plus the geometry. -/
def canonFeature (props : List (String × PropValue)) (g : RawGeometry) :
    Except NormError Feature :=
  match normalizeGeometry g with
  | .error e => .error e
  | .ok cg => .ok ⟨List.insertionSort (fun p q => ¬ q.1 < p.1) props, cg⟩

/-- A raw `Point` record with the given coordinates. -/
def rawPoint (x y : ℚ) : RawGeometry :=
  ⟨"Point", .arr [.num x, .num y]⟩

/-- Re-reading a canonical position as raw GeoJSON coordinates, for feeding a
normalized geometry back through the normalizer. -/
def rawOfPoint (p : CPoint) : RawCoords :=
  .arr [.num (p.1 : ℚ), .num (p.2 : ℚ)]

/-- Re-reading canonical coordinate tuples as raw GeoJSON coordinate arrays. -/
def rawOfCoords : Coords → RawCoords
  | .point p => rawOfPoint p
  | .seq ps => .arr (ps.map rawOfPoint)
  | .seq2 pss => .arr (pss.map (fun ps => RawCoords.arr (ps.map rawOfPoint)))
  | .seq3 psss =>
    .arr (psss.map (fun pss =>
      RawCoords.arr (pss.map (fun ps => RawCoords.arr (ps.map rawOfPoint)))))

/-- Re-reading a canonical geometry as a raw record. -/
def rawOfGeometry (g : Geometry) : RawGeometry :=
  ⟨g.type, rawOfCoords g.coordinates⟩

/-! ## Diff classifier

The `for (tag, i1, i2, j1, j2) in sorted(matcher.get_opcodes())` loop of the
main block.  The formatted `diff_lines` strings are modelled by change
records carrying the same 1-based indices (`'- Delete old feature {i1+1}'`,
`'- Ådd new feature {j1+1}'`, `'- Replace old feature {i1+1} with new feature
{j1+1}'`). -/

/-- One emitted diff line, reduced to the indices it interpolates. -/
inductive ChangeRecord
  | deleted (baseIndex : Nat)
  | inserted (headIndex : Nat)
  | replaced (baseIndex headIndex : Nat)
deriving DecidableEq, Repr

/-- Python slice `l[i1:i2]` (with `0 ≤ i1 ≤ i2`, as opcode bounds are). -/
def pySlice (l : List α) (i1 i2 : Nat) : List α :=
  (l.drop i1).take (i2 - i1)

/-- The three accumulators `diff_lines, add_features, rm_features`. -/
structure DiffResult (α : Type) where
  records : List ChangeRecord
  addFeatures : List α
  rmFeatures : List α
deriving DecidableEq, Repr

/-- One iteration of the classifier loop. -/
def classifyStep (base head : List α) (acc : DiffResult α) (op : Opcode) :
    DiffResult α :=
  match op.tag with
  | .delete =>
    ⟨acc.records ++ [.deleted (op.i1 + 1)], acc.addFeatures,
      acc.rmFeatures ++ pySlice base op.i1 op.i2⟩
  | .insert =>
    ⟨acc.records ++ [.inserted (op.j1 + 1)],
      acc.addFeatures ++ pySlice head op.j1 op.j2, acc.rmFeatures⟩
  | .replace =>
    ⟨acc.records ++ [.replaced (op.i1 + 1) (op.j1 + 1)],
      acc.addFeatures ++ pySlice head op.j1 op.j2,
      acc.rmFeatures ++ pySlice base op.i1 op.i2⟩
  | .equal => acc

/-- The classifier loop over a given opcode list. -/
def classifyOps (base head : List α) (ops : List Opcode) : DiffResult α :=
  ops.foldl (classifyStep base head) ⟨[], [], []⟩

/-- The opcode list in the order the loop processes it:
`sorted(matcher.get_opcodes())`. -/
def processedOpcodes (base head : List α) : List Opcode :=
  pySorted (getOpcodes base head)

/-- The whole diff step of the main block for one dataset. -/
def runDiff (base head : List α) : DiffResult α :=
  classifyOps base head (processedOpcodes base head)

/-- The record (if any) that one opcode contributes. -/
def recordOf (op : Opcode) : Option ChangeRecord :=
  match op.tag with
  | .delete => some (.deleted (op.i1 + 1))
  | .insert => some (.inserted (op.j1 + 1))
  | .replace => some (.replaced (op.i1 + 1) (op.j1 + 1))
  | .equal => none

/-- The slice of base features one opcode appends to `rm_features`. -/
def rmSlicesOf (base : List α) (op : Opcode) : List α :=
  match op.tag with
  | .delete => pySlice base op.i1 op.i2
  | .replace => pySlice base op.i1 op.i2
  | _ => []

/-- The slice of head features one opcode appends to `add_features`. -/
def addSlicesOf (head : List α) (op : Opcode) : List α :=
  match op.tag with
  | .insert => pySlice head op.j1 op.j2
  | .replace => pySlice head op.j1 op.j2
  | _ => []

/-! ## Overlay renderer -/

/-- `combined_bboxes(features)`: componentwise min/max over all feature
bboxes.  On an empty list the Python unpacking `lefts, rights, bottoms, tops =
zip(*[])` raises `ValueError` — modelled as `none`. -/
def combined_bboxes : List Feature → Option (ℤ × ℤ × ℤ × ℤ)
  | [] => none
  | f :: fs =>
    some (fs.foldl
      (fun e g =>
        (min e.1 g.geometry.bbox.1, max e.2.1 g.geometry.bbox.2.1,
          min e.2.2.1 g.geometry.bbox.2.2.1, max e.2.2.2 g.geometry.bbox.2.2.2))
      f.geometry.bbox)

/-- The user-to-device transform installed on the cairo context before any
drawing: `ctx.translate(200, 200); ctx.scale(400/16000, 400/16000);
ctx.scale(1, -1)`.  It maps world `(x, y)` to device
`(200 + x·400/16000, 200 − y·400/16000)` and is built from constants only. -/
def userToDevice (p : ℚ × ℚ) : ℚ × ℚ :=
  (200 + p.1 * (400 / 16000), 200 - p.2 * (400 / 16000))

/-- Fill color of added features: `(.3, 1, 1)`. -/
def addedFill : ℚ × ℚ × ℚ := (3/10, 1, 1)

/-- Stroke color of added features: `(0, .3, 1)`. -/
def addedStroke : ℚ × ℚ × ℚ := (0, 3/10, 1)

/-- Fill color of removed features: `(1, .5, .5)`. -/
def removedFill : ℚ × ℚ × ℚ := (1, 1/2, 1/2)

/-- Stroke color of removed features: `(.9, 0, 0)`. -/
def removedStroke : ℚ × ℚ × ℚ := (9/10, 0, 0)

/-- The sequence of `draw_geometry` calls the render block issues: first the
loop over `add_features` with the added colors, then the loop over
`rm_features` with the removed colors. -/
def renderPass (adds rms : List Feature) :
    List (Feature × ((ℚ × ℚ × ℚ) × (ℚ × ℚ × ℚ))) :=
  adds.map (fun f => (f, (addedFill, addedStroke)))
    ++ rms.map (fun f => (f, (removedFill, removedStroke)))

/-- Cairo context commands emitted by `draw_geometry` and its helpers. -/
inductive DrawCmd
  | moveTo (x y : ℚ)
  | lineTo (x y : ℚ)
  | arc (x y r : ℚ)
  | setSourceRGB (c : ℚ × ℚ × ℚ)
  | fill
  | stroke
deriving DecidableEq, Repr

/-- Errors of the render path: the `raise ValueError(feature.geometry.type)`
fallback of `draw_geometry`, or coordinates whose shape does not match the
type (Python would raise from `coordinates[0]` or `move_to(*...)`). -/
inductive DrawError
  | unknownType (t : String)
  | badShape
deriving DecidableEq, Repr

/-- The circle radius `point_movements` computes:
`ctx.device_to_user_distance(3, 0)` under the scale `400/16000` is
`3 · 16000/400 = 120` user units. -/
def pointRadius : ℚ := 3 * (16000 / 400)

/-- `line_movements(ctx, coordinates)`: `move_to` the first position, then
`line_to` the rest; fails on an empty list (`coordinates[0]` raises). -/
def line_movements : List CPoint → Except DrawError (List DrawCmd)
  | [] => .error .badShape
  | p :: ps =>
    .ok (.moveTo (p.1 : ℚ) (p.2 : ℚ)
      :: ps.map (fun q => .lineTo (q.1 : ℚ) (q.2 : ℚ)))

/-- `point_movements(ctx, coordinates)`: per point, a `move_to` and a full
`arc` of device radius 3. -/
def point_movements (ps : List CPoint) : List DrawCmd :=
  (ps.map (fun p =>
    [DrawCmd.moveTo (p.1 : ℚ) (p.2 : ℚ),
      DrawCmd.arc (p.1 : ℚ) (p.2 : ℚ) pointRadius])).flatten

/-- One polygon part: trace all rings setting the fill color, one `fill`, then
re-trace each ring with the stroke color and a `stroke` per ring — exactly the
two inner loops of the `MultiPolygon` branch (and the whole `Polygon`
branch). -/
def drawPolyPart (fill_rgb stroke_rgb : ℚ × ℚ × ℚ)
    (rings : List (List CPoint)) : Except DrawError (List DrawCmd) :=
  match rings.mapM line_movements with
  | .error e => .error e
  | .ok traced =>
    .ok ((traced.map (fun t => t ++ [DrawCmd.setSourceRGB fill_rgb])).flatten
      ++ [DrawCmd.fill]
      ++ (traced.map (fun t =>
        t ++ [DrawCmd.setSourceRGB stroke_rgb, DrawCmd.stroke])).flatten)

/-- `draw_geometry(ctx, feature, fill_rgb, stroke_rgb)`: dispatch on the type
string in the script's branch order, with its `raise ValueError` fallback. -/
def draw_geometry (f : Feature) (fill_rgb stroke_rgb : ℚ × ℚ × ℚ) :
    Except DrawError (List DrawCmd) :=
  if f.geometry.type = "MultiPolygon" then
    match f.geometry.coordinates with
    | .seq3 parts =>
      match parts.mapM (drawPolyPart fill_rgb stroke_rgb) with
      | .error e => .error e
      | .ok cmds => .ok cmds.flatten
    | _ => .error .badShape
  else if f.geometry.type = "Polygon" then
    match f.geometry.coordinates with
    | .seq2 rings => drawPolyPart fill_rgb stroke_rgb rings
    | _ => .error .badShape
  else if f.geometry.type = "MultiLineString" then
    match f.geometry.coordinates with
    | .seq2 lines =>
      match lines.mapM line_movements with
      | .error e => .error e
      | .ok traced =>
        .ok ((traced.map (fun t =>
          t ++ [DrawCmd.setSourceRGB stroke_rgb, DrawCmd.stroke])).flatten)
    | _ => .error .badShape
  else if f.geometry.type = "LineString" then
    match f.geometry.coordinates with
    | .seq ps =>
      match line_movements ps with
      | .error e => .error e
      | .ok t => .ok (t ++ [DrawCmd.setSourceRGB stroke_rgb, DrawCmd.stroke])
    | _ => .error .badShape
  else if f.geometry.type = "MultiPoint" then
    match f.geometry.coordinates with
    | .seq ps =>
      .ok (point_movements ps ++ [DrawCmd.setSourceRGB fill_rgb, DrawCmd.fill])
    | _ => .error .badShape
  else if f.geometry.type = "Point" then
    match f.geometry.coordinates with
    | .point p =>
      .ok (point_movements [p] ++ [DrawCmd.setSourceRGB fill_rgb, DrawCmd.fill])
    | _ => .error .badShape
  else .error (.unknownType f.geometry.type)

/-- The six supported GeoJSON type tags. -/
def supportedTags : List String :=
  ["Point", "MultiPoint", "LineString", "MultiLineString", "Polygon",
    "MultiPolygon"]

/-! ## Statement-side predicates and fixtures -/

/-- Opcodes listed in ascending `(i1, j1)` order. -/
def ascendingByI1J1 (ops : List Opcode) : Prop :=
  ops.Pairwise (fun o1 o2 => o1.i1 < o2.i1 ∨ (o1.i1 = o2.i1 ∧ o1.j1 ≤ o2.j1))

instance decAscendingByI1J1 (ops : List Opcode) :
    Decidable (ascendingByI1J1 ops) := by
  unfold ascendingByI1J1
  infer_instance

/-- A render-pass entry drawn with the "added" colors. -/
def entryAdded (e : Feature × ((ℚ × ℚ × ℚ) × (ℚ × ℚ × ℚ))) : Prop :=
  e.2 = (addedFill, addedStroke)

/-- A render-pass entry drawn with the "removed" colors. -/
def entryRemoved (e : Feature × ((ℚ × ℚ × ℚ) × (ℚ × ℚ × ℚ))) : Prop :=
  e.2 = (removedFill, removedStroke)

/-- Every added-colored draw call comes after every removed-colored one. -/
def addedDrawnAfterRemoved
    (l : List (Feature × ((ℚ × ℚ × ℚ) × (ℚ × ℚ × ℚ)))) : Prop :=
  ∀ i j ea er, l.get? i = some ea → l.get? j = some er →
    entryAdded ea → entryRemoved er → j < i

/-- Every removed-colored draw call comes after every added-colored one. -/
def removedDrawnAfterAdded
    (l : List (Feature × ((ℚ × ℚ × ℚ) × (ℚ × ℚ × ℚ)))) : Prop :=
  ∀ i j ea er, l.get? i = some ea → l.get? j = some er →
    entryAdded ea → entryRemoved er → i < j

/-- A canonical position embeds back into raw coordinates. -/
def castPt (p : CPoint) : ℚ × ℚ :=
  ((p.1 : ℚ), (p.2 : ℚ))

/-- Every raw coordinate value of the tree is a whole number. -/
def IntegralCoords (rc : RawCoords) : Prop :=
  ∀ p ∈ collectXY rc, (∃ a : ℤ, p.1 = (a : ℚ)) ∧ ∃ b : ℤ, p.2 = (b : ℚ)

/-- Fixture: a point feature at canonical `(k, 0)`. -/
def featAt (k : ℤ) : Feature :=
  ⟨[], ⟨"Point", (k, k, 0, 0), .point (k, 0)⟩⟩

/-! ## Proof-support definitions for the identity-diff analysis

For the identity diff (`a = b = S`) the decisive fact is that the main loop of
`find_longest_match` always leaves a best match sitting on the diagonal
`besti = bestj`; the non-junk extension loops then stretch it to the whole
window.  `activeAt` marks the positions that survive the autojunk purge and
`diagRun` measures the run of consecutive surviving positions ending at an
index — the exact value the diagonal `j2len` chain attains. -/

/-- Position `j` of `S` carries a non-popular element (so `j` appears in the
`b2j` occurrence list of its own element). -/
def activeAt (S : List α) (j : Nat) : Bool :=
  match S.get? j with
  | some x => !(isPopular S x)
  | none => false

/-- Length of the maximal run of consecutive active positions ending at `j`. -/
def diagRun (S : List α) : Nat → Nat
  | 0 => if activeAt S 0 then 1 else 0
  | j + 1 => if activeAt S (j + 1) then diagRun S j + 1 else 0

/-- The `k` value computed for key `j` from the previous iteration's `j2len`
dictionary `m`: `j2len.get(j-1, 0) + 1`. -/
def kVal (m : Nat → Nat) (j : Nat) : Nat :=
  (if j = 0 then 0 else m (j - 1)) + 1

/-- One best-match comparison step of the inner loop at outer index `i`. -/
def bestStep (m : Nat → Nat) (i : Nat) (b : Nat × Nat × Nat) (j : Nat) :
    Nat × Nat × Nat :=
  if b.2.2 < kVal m j then (i + 1 - kVal m j, j + 1 - kVal m j, kVal m j) else b

/-- Loop invariant of the `find_longest_match` main loop on the identity
instance `a = b = S` with the full window, after `t` outer iterations: the
best match is diagonal and fits in the processed prefix, its size dominates
every completed active run, and the `j2len` dictionary `m` is bounded by the
run lengths, bounded by the run ending at the last processed index, and exact
on the diagonal key. -/
def SelfInv (S : List α) (t : Nat) (m : Nat → Nat) (best : Nat × Nat × Nat) :
    Prop :=
  best.1 = best.2.1 ∧
  best.1 + best.2.2 ≤ t ∧
  (∀ j, j < t → diagRun S j ≤ best.2.2) ∧
  (∀ j, m j ≤ diagRun S j) ∧
  (∀ j, m j ≤ (if t = 0 then 0 else diagRun S (t - 1))) ∧
  (∀ j, t = j + 1 → m j = diagRun S j)

/-! ## Helper lemmas -/

/-- The classifier fold, fully characterized: records in processing order, one
per non-`equal` opcode, and the concatenated head/base slices. -/
theorem classify_foldl (base head : List α) (ops : List Opcode)
    (acc : DiffResult α) :
    ops.foldl (classifyStep base head) acc =
      ⟨acc.records ++ ops.filterMap recordOf,
        acc.addFeatures ++ ops.flatMap (addSlicesOf head),
        acc.rmFeatures ++ ops.flatMap (rmSlicesOf base)⟩ := by
  induction ops generalizing acc with
  | nil => simp
  | cons op ops ih =>
    rw [List.foldl_cons, ih]
    cases htag : op.tag <;>
      simp [classifyStep, recordOf, addSlicesOf, rmSlicesOf, htag,
        List.filterMap_cons, List.flatMap_cons, List.append_assoc]

/-- `runDiff` in closed form. -/
theorem runDiff_eq (base head : List α) :
    runDiff base head =
      ⟨(processedOpcodes base head).filterMap recordOf,
        (processedOpcodes base head).flatMap (addSlicesOf head),
        (processedOpcodes base head).flatMap (rmSlicesOf base)⟩ := by
  rw [runDiff, classifyOps, classify_foldl]
  simp only [List.nil_append]

/-! ## Claims -/

/-- C10: `combined_bboxes` is undefined exactly on the empty feature list:
when both `addedFeatures` and `removedFeatures` are empty, the `zip(*...)`
unpacking fails instead of returning a bbox, so the render step cannot
proceed for a change-free dataset. -/
theorem claim_c10 (adds rms : List Feature) :
    combined_bboxes (adds ++ rms) = none ↔ adds = [] ∧ rms = [] := by
  constructor
  · intro h
    cases adds with
    | nil =>
      cases rms with
      | nil => exact ⟨rfl, rfl⟩
      | cons f fs => simp [combined_bboxes] at h
    | cons f fs => simp [combined_bboxes] at h
  · rintro ⟨rfl, rfl⟩
    rfl

/-- Witness for C10 at the concrete change-free input. -/
theorem claim_c10_witness :
    combined_bboxes (([] : List Feature) ++ []) = none :=
  (claim_c10 [] []).mpr ⟨rfl, rfl⟩

/-- C5 (amended): the render transform is a fixed map, independent of the
feature bboxes; it sends a world point to the canvas center `(200, 200)` iff
that point is the world origin. -/
theorem claim_c5 (p : ℚ × ℚ) :
    userToDevice p = (200, 200) ↔ p = (0, 0) := by
  constructor
  · intro h
    rw [userToDevice, Prod.ext_iff] at h
    obtain ⟨h1, h2⟩ := h
    simp only at h1 h2
    have hx : p.1 * (400 / 16000) = 0 := by linarith
    have hy : p.2 * (400 / 16000) = 0 := by linarith
    rcases mul_eq_zero.mp hx with hx0 | hc
    · rcases mul_eq_zero.mp hy with hy0 | hc
      · exact Prod.ext hx0 hy0
      · norm_num at hc
    · norm_num at hc
  · rintro rfl
    norm_num [userToDevice]

/-- Witness for C5 at the world origin. -/
theorem claim_c5_witness : userToDevice (0, 0) = (200, 200) :=
  (claim_c5 (0, 0)).mpr rfl

/-- Counterexample to C5 as stated: for `addedFeatures = [P1]`,
`removedFeatures = []` with `P1` the point `(8000, 0)` (which is the center of
its own bbox), the transform sends it to `(400, 200)`, not to the canvas
center. -/
theorem claim_c5_counterexample :
    combined_bboxes [featAt 8000] = some (8000, 8000, 0, 0) ∧
    ((8000 : ℚ) + 8000) / 2 = 8000 ∧ ((0 : ℚ) + 0) / 2 = 0 ∧
    userToDevice (8000, 0) = (400, 200) ∧
    ((400 : ℚ), (200 : ℚ)) ≠ (200, 200) := by
  refine ⟨rfl, by norm_num, by norm_num, by norm_num [userToDevice], by norm_num⟩

/-- C6 (amended): in the render block every removed feature is drawn after
every added feature (`add_features` loop first, `rm_features` loop second), so
removed features end up on top of added ones. -/
theorem claim_c6 (adds rms : List Feature) :
    removedDrawnAfterAdded (renderPass adds rms) := by
  intro i j ea er hi hj ha hr
  have hcol : (addedFill, addedStroke) ≠ (removedFill, removedStroke) := by
    intro h
    have h1 := congrArg (fun q => q.1.1) h
    simp only [addedFill, removedFill] at h1
    norm_num at h1
  have hil : i < adds.length := by
    by_contra hle
    push_neg at hle
    rw [renderPass, List.get?_append_right (by simpa using hle)] at hi
    rw [List.get?_map] at hi
    cases hrm : rms.get? (i - (adds.map (fun f => (f, (addedFill, addedStroke)))).length) with
    | none => rw [hrm] at hi; cases hi
    | some f =>
      rw [hrm] at hi
      cases hi
      exact hcol (ha.symm ▸ rfl)
  have hjl : adds.length ≤ j := by
    by_contra hlt
    push_neg at hlt
    rw [renderPass, List.get?_append (by simpa using hlt), List.get?_map] at hj
    cases had : adds.get? j with
    | none => rw [had] at hj; cases hj
    | some f =>
      rw [had] at hj
      cases hj
      exact hcol (hr ▸ rfl)
  omega

/-- Witness for C6 at a two-feature render pass. -/
theorem claim_c6_witness : (0 : Nat) < 1 :=
  claim_c6 [featAt 0] [featAt 1] 0 1 (featAt 0, (addedFill, addedStroke))
    (featAt 1, (removedFill, removedStroke)) rfl rfl rfl rfl

/-- Counterexample to C6 as stated: with one added and one removed feature the
added one is drawn first (index 0), not after the removed one. -/
theorem claim_c6_counterexample :
    ¬ addedDrawnAfterRemoved (renderPass [featAt 0] [featAt 1]) := by
  intro h
  have := h 0 1 (featAt 0, (addedFill, addedStroke))
    (featAt 1, (removedFill, removedStroke)) rfl rfl rfl rfl
  omega

/-- Normalization of a raw point, in closed form: coordinates rounded to the
nearest whole number, envelope components truncated toward zero. -/
theorem normalize_rawPoint (x y : ℚ) :
    normalizeGeometry (rawPoint x y) =
      .ok ⟨"Point", (pyInt x, pyInt x, pyInt y, pyInt y),
        .point (round x, round y)⟩ := by
  simp [normalizeGeometry, rawPoint, unspooled_coordinates, asXY, envelope,
    collectXY]

/-- C3 (amended): normalization rounds every stored coordinate to 0 decimal
digits (GDAL `COORDINATE_PRECISION:0`) and truncates the bbox to whole units,
so two raw Points whose coordinates agree after whole-unit rounding and
truncation canonicalize to equal geometries — in particular pairs differing
only at the 6th decimal digit can collapse. -/
theorem claim_c3 (x1 y1 x2 y2 : ℚ) (hx : round x1 = round x2)
    (hy : round y1 = round y2) (tx : pyInt x1 = pyInt x2)
    (ty : pyInt y1 = pyInt y2) :
    normalizeGeometry (rawPoint x1 y1) = normalizeGeometry (rawPoint x2 y2) := by
  rw [normalize_rawPoint, normalize_rawPoint, hx, hy, tx, ty]

/-- Witness for C3: the Points `(0, 0)` and `(0.000001, 0)` differ at the 6th
decimal digit yet canonicalize to equal geometries. -/
theorem claim_c3_witness :
    normalizeGeometry (rawPoint 0 0) =
      normalizeGeometry (rawPoint (1/1000000) 0) :=
  claim_c3 0 0 (1/1000000) 0
    (by rw [round_eq, round_eq]; norm_num [Int.floor_eq_iff])
    rfl
    (by rw [pyInt, pyInt]; norm_num [Int.floor_eq_iff])
    rfl

/-- Counterexample to C3 as stated: the Points `(0.49999999, 0)` and
`(0.50000001, 0)` differ only beyond the 7th decimal digit, yet their
canonical geometries are unequal (their coordinates round to 0 and 1). -/
theorem claim_c3_counterexample :
    |((49999999 : ℚ)/100000000) - 50000001/100000000| < 1/10^7 ∧
    normalizeGeometry (rawPoint (49999999/100000000) 0) ≠
      normalizeGeometry (rawPoint (50000001/100000000) 0) := by
  constructor
  · rw [abs_sub_lt_iff]
    constructor <;> norm_num
  · have e1 : normalizeGeometry (rawPoint (49999999/100000000) 0) =
        .ok ⟨"Point", (0, 0, 0, 0), .point (0, 0)⟩ := by
      rw [normalize_rawPoint]
      norm_num [pyInt, round_eq, Int.floor_eq_iff]
    have e2 : normalizeGeometry (rawPoint (50000001/100000000) 0) =
        .ok ⟨"Point", (0, 0, 0, 0), .point (1, 0)⟩ := by
      rw [normalize_rawPoint]
      norm_num [pyInt, round_eq, Int.floor_eq_iff]
    rw [e1, e2]
    simp [Prod.ext_iff]

/-- C4 (amended): the canonical bbox quadruple equals the raw envelope
components truncated toward zero by Python's `int()`, not rounded to
nearest. -/
theorem claim_c4 (g : RawGeometry) (cg : Geometry)
    (h : normalizeGeometry g = .ok cg) :
    cg.bbox =
      (pyInt (envelope g.coordinates).1, pyInt (envelope g.coordinates).2.1,
        pyInt (envelope g.coordinates).2.2.1,
        pyInt (envelope g.coordinates).2.2.2) := by
  rw [normalizeGeometry] at h
  cases hu : unspooled_coordinates g with
  | error e => rw [hu] at h; cases h
  | ok cs =>
    rw [hu] at h
    cases h
    rfl

/-- Witness for C4 at the raw point `(0.6, 0.6)`. -/
theorem claim_c4_witness :
    (⟨"Point", (0, 0, 0, 0), .point (1, 1)⟩ : Geometry).bbox =
      (pyInt (envelope (rawPoint (3/5) (3/5)).coordinates).1,
        pyInt (envelope (rawPoint (3/5) (3/5)).coordinates).2.1,
        pyInt (envelope (rawPoint (3/5) (3/5)).coordinates).2.2.1,
        pyInt (envelope (rawPoint (3/5) (3/5)).coordinates).2.2.2) :=
  claim_c4 (rawPoint (3/5) (3/5)) ⟨"Point", (0, 0, 0, 0), .point (1, 1)⟩
    (by rw [normalize_rawPoint]
        norm_num [pyInt, Int.floor_eq_iff, round_eq])

/-- Counterexample to C4 as stated: the raw point `(0.6, 0.6)` has envelope
`(0.6, 0.6, 0.6, 0.6)`; the stored bbox is `(0, 0, 0, 0)` (truncation), while
rounding to the nearest whole unit would give 1. -/
theorem claim_c4_counterexample :
    normalizeGeometry (rawPoint (3/5) (3/5)) =
      .ok ⟨"Point", (0, 0, 0, 0), .point (1, 1)⟩ ∧
    round ((3/5 : ℚ)) = 1 ∧ ((0 : ℤ) ≠ 1) := by
  refine ⟨?_, ?_, by norm_num⟩
  · rw [normalize_rawPoint]
    norm_num [pyInt, Int.floor_eq_iff, round_eq]
  · rw [round_eq]; norm_num [Int.floor_eq_iff]

/-- `line_movements` can only fail with the bad-shape error. -/
theorem line_movements_error (ps : List CPoint) (e : DrawError)
    (h : line_movements ps = .error e) : e = .badShape := by
  cases ps with
  | nil => cases h; rfl
  | cons p rest => cases h

/-- An `Except`-valued `mapM` fails only with an error raised by some list
element. -/
theorem mapM_except_error {β γ : Type} (f : β → Except DrawError γ) :
    ∀ (xs : List β) (e : DrawError), xs.mapM f = .error e →
      ∃ x ∈ xs, f x = .error e := by
  intro xs
  induction xs with
  | nil => intro e h; cases h
  | cons a l ih =>
    intro e h
    rw [List.mapM_cons] at h
    cases hfa : f a with
    | error e' =>
      rw [hfa] at h
      cases h
      exact ⟨a, List.mem_cons_self a l, hfa⟩
    | ok b =>
      rw [hfa] at h
      cases hl : List.mapM f l with
      | error e' =>
        rw [hl] at h
        cases h
        obtain ⟨x, hx, hfx⟩ := ih _ hl
        exact ⟨x, List.mem_cons_of_mem a hx, hfx⟩
      | ok bs => rw [hl] at h; cases h

/-- `drawPolyPart` can only fail with the bad-shape error. -/
theorem drawPolyPart_error (fc sc : ℚ × ℚ × ℚ) (rings : List (List CPoint))
    (e : DrawError) (h : drawPolyPart fc sc rings = .error e) :
    e = .badShape := by
  rw [drawPolyPart] at h
  cases hm : rings.mapM line_movements with
  | error e' =>
    rw [hm] at h
    cases h
    obtain ⟨r, -, hr⟩ := mapM_except_error line_movements rings e hm
    exact line_movements_error r e hr
  | ok traced => rw [hm] at h; cases h

/-- For an unsupported tag, `unspooled_coordinates` raises the unknown-kind
error. -/
theorem unspooled_unsupported (g : RawGeometry)
    (h : g.type ∉ supportedTags) :
    unspooled_coordinates g = .error (.unknownType g.type) := by
  simp only [supportedTags, List.mem_cons, List.not_mem_nil, or_false,
    not_or] at h
  obtain ⟨h1, h2, h3, h4, h5, h6⟩ := h
  rw [unspooled_coordinates]
  simp [h1, h2, h3, h4, h5, h6]

/-- For a supported tag, `unspooled_coordinates` can only fail with the
bad-shape error. -/
theorem unspooled_supported (g : RawGeometry) (h : g.type ∈ supportedTags)
    (e : NormError) (he : unspooled_coordinates g = .error e) :
    e = .badShape := by
  simp only [supportedTags, List.mem_cons, List.not_mem_nil, or_false] at h
  rw [unspooled_coordinates] at he
  rcases h with h | h | h | h | h | h <;> simp [h] at he <;>
    [skip; skip; skip; skip; skip; skip] <;> first
    | (cases hc : asXY g.coordinates <;> rw [hc] at he <;> cases he <;> rfl)
    | (cases hc : asXYList g.coordinates <;> rw [hc] at he <;> cases he <;> rfl)
    | (cases hc : asXYList2 g.coordinates <;> rw [hc] at he <;> cases he <;> rfl)
    | (cases hc : asXYList3 g.coordinates <;> rw [hc] at he <;> cases he <;> rfl)

/-- For an unsupported tag, `draw_geometry` raises the unknown-kind error. -/
theorem draw_unsupported (f : Feature) (fc sc : ℚ × ℚ × ℚ)
    (h : f.geometry.type ∉ supportedTags) :
    draw_geometry f fc sc = .error (.unknownType f.geometry.type) := by
  simp only [supportedTags, List.mem_cons, List.not_mem_nil, or_false,
    not_or] at h
  obtain ⟨h1, h2, h3, h4, h5, h6⟩ := h
  rw [draw_geometry]
  simp [h1, h2, h3, h4, h5, h6]

/-- Error-component injectivity for `Except.error` equations. -/
theorem err_inj {γ : Type} {e1 e2 : DrawError}
    (h : (Except.error e1 : Except DrawError γ) = .error e2) : e2 = e1 :=
  (Except.error.inj h).symm

/-- For a supported tag, `draw_geometry` can only fail with the bad-shape
error. -/
theorem draw_supported (f : Feature) (fc sc : ℚ × ℚ × ℚ)
    (h : f.geometry.type ∈ supportedTags) (e : DrawError)
    (he : draw_geometry f fc sc = .error e) : e = .badShape := by
  simp only [supportedTags, List.mem_cons, List.not_mem_nil, or_false] at h
  rw [draw_geometry] at he
  rcases h with h | h | h | h | h | h
  · -- Point
    simp only [h, String.reduceEq, reduceIte, or_self, or_false, false_or] at he
    split at he
    · exact Except.noConfusion he
    · exact err_inj he
  · -- MultiPoint
    simp only [h, String.reduceEq, reduceIte, or_self, or_false, false_or,
      or_true, true_or] at he
    split at he
    · exact Except.noConfusion he
    · exact err_inj he
  · -- LineString
    simp only [h, String.reduceEq, reduceIte, or_self, or_false, false_or,
      or_true, true_or] at he
    split at he
    · rename_i ps _heq
      cases hl : line_movements ps with
      | error e1 =>
        rw [hl] at he
        rw [err_inj he]
        exact line_movements_error ps e1 hl
      | ok t => rw [hl] at he; exact Except.noConfusion he
    · exact err_inj he
  · -- MultiLineString
    simp only [h, String.reduceEq, reduceIte, or_self, or_false, false_or,
      or_true, true_or] at he
    split at he
    · rename_i lines _heq
      cases hm : lines.mapM line_movements with
      | error e1 =>
        rw [hm] at he
        rw [err_inj he]
        obtain ⟨r, -, hr⟩ := mapM_except_error line_movements lines e1 hm
        exact line_movements_error r e1 hr
      | ok t => rw [hm] at he; exact Except.noConfusion he
    · exact err_inj he
  · -- Polygon
    simp only [h, String.reduceEq, reduceIte, or_self, or_false, false_or,
      or_true, true_or] at he
    split at he
    · rename_i rings _heq
      exact drawPolyPart_error fc sc rings e he
    · exact err_inj he
  · -- MultiPolygon
    simp only [h, String.reduceEq, reduceIte, or_self, or_false, false_or,
      or_true, true_or] at he
    split at he
    · rename_i parts _heq
      cases hm : parts.mapM (drawPolyPart fc sc) with
      | error e1 =>
        rw [hm] at he
        rw [err_inj he]
        obtain ⟨part, -, hp⟩ := mapM_except_error (drawPolyPart fc sc) parts e1 hm
        exact drawPolyPart_error fc sc part e1 hp
      | ok cmds => rw [hm] at he; exact Except.noConfusion he
    · exact err_inj he

/-- C7: any geometry whose tag is outside the six supported kinds makes both
the normalize path (`unspooled_coordinates`) and the render path
(`draw_geometry`) raise the fatal unknown-geometry-kind error, and no
geometry with a supported tag makes either path raise it. -/
theorem claim_c7 (g : RawGeometry) (f : Feature) (fc sc : ℚ × ℚ × ℚ) :
    (g.type ∉ supportedTags →
      unspooled_coordinates g = .error (.unknownType g.type)) ∧
    (g.type ∈ supportedTags →
      ∀ t, unspooled_coordinates g ≠ .error (.unknownType t)) ∧
    (f.geometry.type ∉ supportedTags →
      draw_geometry f fc sc = .error (.unknownType f.geometry.type)) ∧
    (f.geometry.type ∈ supportedTags →
      ∀ t, draw_geometry f fc sc ≠ .error (.unknownType t)) := by
  refine ⟨unspooled_unsupported g, ?_, draw_unsupported f fc sc, ?_⟩
  · intro h t hcontra
    cases unspooled_supported g h _ hcontra
  · intro h t hcontra
    cases draw_supported f fc sc h _ hcontra

/-- Witness for C7: `"GeometryCollection"` raises the unknown-kind error on
both paths, while a supported `"Point"` raises it on neither. -/
theorem claim_c7_witness :
    unspooled_coordinates ⟨"GeometryCollection", .arr []⟩ =
      .error (.unknownType "GeometryCollection") ∧
    draw_geometry ⟨[], ⟨"GeometryCollection", (0, 0, 0, 0), .point (0, 0)⟩⟩
        addedFill addedStroke =
      .error (.unknownType "GeometryCollection") ∧
    (∀ t, unspooled_coordinates (rawPoint 2 3) ≠ .error (.unknownType t)) ∧
    (∀ t, draw_geometry (featAt 5) addedFill addedStroke ≠
      .error (.unknownType t)) := by
  refine ⟨?_, ?_, ?_, ?_⟩
  · exact (claim_c7 ⟨"GeometryCollection", .arr []⟩ (featAt 0) addedFill
      addedStroke).1 (by decide)
  · exact (claim_c7 ⟨"GeometryCollection", .arr []⟩
      ⟨[], ⟨"GeometryCollection", (0, 0, 0, 0), .point (0, 0)⟩⟩ addedFill
      addedStroke).2.2.1 (by decide)
  · exact (claim_c7 (rawPoint 2 3) (featAt 0) addedFill addedStroke).2.1
      (by decide)
  · exact (claim_c7 (rawPoint 2 3) (featAt 5) addedFill addedStroke).2.2.2
      (by decide)

/-- C1 (amended): the Diff Classifier processes
`sorted(matcher.get_opcodes())`, i.e. the opcodes in ascending lexicographic
order of the full tuple `(tag, i1, i2, j1, j2)` with tags compared
alphabetically, and the emitted ChangeRecords follow that processing order —
which is not in general ascending in `(i1, j1)`. -/
theorem claim_c1 (base head : List Feature) :
    List.Sorted opLE (processedOpcodes base head) ∧
    (runDiff base head).records =
      (processedOpcodes base head).filterMap recordOf := by
  constructor
  · exact List.sorted_insertionSort opLE (getOpcodes base head)
  · rw [runDiff_eq]

/-- Counterexample to C1 as stated: for base `[A, B, C]` and head `[D, B]`
the aligner yields `replace(0,1,0,1), equal(1,2,1,2), delete(2,3,2,2)`;
`sorted` reorders them tag-first, so the processed sequence — and the record
list `[Deleted 3, Replaced 1 1]` — is not in ascending `(i1, j1)` order. -/
theorem claim_c1_counterexample :
    processedOpcodes [featAt 0, featAt 1, featAt 2] [featAt 3, featAt 1] =
      [⟨.delete, 2, 3, 2, 2⟩, ⟨.equal, 1, 2, 1, 2⟩, ⟨.replace, 0, 1, 0, 1⟩] ∧
    ¬ ascendingByI1J1
        (processedOpcodes [featAt 0, featAt 1, featAt 2] [featAt 3, featAt 1]) ∧
    (runDiff [featAt 0, featAt 1, featAt 2] [featAt 3, featAt 1]).records =
      [.deleted 3, .replaced 1 1] := by
  refine ⟨by decide, by decide, by decide⟩

/-- C2 (amended): for every `delete` opcode the classifier emits exactly one
`Deleted(i1+1)` record (one per opcode, not one per index of `[i1, i2)`),
while appending the whole slice `base[i1:i2]` to `removedFeatures`; likewise
one `Inserted(j1+1)` per `insert` opcode with `head[j1:j2]` appended to
`addedFeatures`, and one `Replaced(i1+1, j1+1)` per `replace` opcode with
both slices appended. -/
theorem claim_c2 (base head : List Feature) :
    runDiff base head =
      ⟨(processedOpcodes base head).filterMap recordOf,
        (processedOpcodes base head).flatMap (addSlicesOf head),
        (processedOpcodes base head).flatMap (rmSlicesOf base)⟩ :=
  runDiff_eq base head

/-- Counterexample to C2 as stated: diffing `[A, B, C]` against `[C]` yields
the single opcode `delete(0,2,0,0)` spanning two indices, yet only one
`Deleted(1)` record is emitted (not `i2 - i1 = 2` of them), while both
features of the slice `base[0:2]` are appended to `removedFeatures`. -/
theorem claim_c2_counterexample :
    processedOpcodes [featAt 0, featAt 1, featAt 2] [featAt 2] =
      [⟨.delete, 0, 2, 0, 0⟩, ⟨.equal, 2, 3, 0, 1⟩] ∧
    (runDiff [featAt 0, featAt 1, featAt 2] [featAt 2]).records =
      [.deleted 1] ∧
    (runDiff [featAt 0, featAt 1, featAt 2] [featAt 2]).rmFeatures =
      [featAt 0, featAt 1] ∧
    (2 : Nat) - 0 ≠ 1 := by
  refine ⟨by decide, by decide, by decide, by decide⟩

/-! ## Round-trip lemmas for re-normalization (claim C9) -/

/-- Inversion of a successful position parse. -/
theorem asXY_some {rc : RawCoords} {p : CPoint} (h : asXY rc = some p) :
    ∃ x y : ℚ, rc = .arr [.num x, .num y] ∧ p = (round x, round y) := by
  cases rc with
  | num q => cases h
  | arr xs =>
    rcases xs with _ | ⟨a, _ | ⟨b, _ | ⟨c, rest⟩⟩⟩
    · cases h
    · cases a <;> cases h
    · cases a with
      | num x =>
        cases b with
        | num y =>
          refine ⟨x, y, rfl, ?_⟩
          cases h
          rfl
        | arr ys => cases h
      | arr ys => cases b <;> cases h
    · cases a <;> cases b <;> cases h

/-- Inversion of a successful position-list parse. -/
theorem asXYList_some {rc : RawCoords} {ps : List CPoint}
    (h : asXYList rc = some ps) :
    ∃ ys, rc = .arr ys ∧ ys.mapM asXY = some ps := by
  cases rc with
  | num q => cases h
  | arr ys => exact ⟨ys, rfl, h⟩

/-- Inversion of a successful level-2 parse. -/
theorem asXYList2_some {rc : RawCoords} {pss : List (List CPoint)}
    (h : asXYList2 rc = some pss) :
    ∃ ys, rc = .arr ys ∧ ys.mapM asXYList = some pss := by
  cases rc with
  | num q => cases h
  | arr ys => exact ⟨ys, rfl, h⟩

/-- Inversion of a successful level-3 parse. -/
theorem asXYList3_some {rc : RawCoords} {psss : List (List (List CPoint))}
    (h : asXYList3 rc = some psss) :
    ∃ ys, rc = .arr ys ∧ ys.mapM asXYList2 = some psss := by
  cases rc with
  | num q => cases h
  | arr ys => exact ⟨ys, rfl, h⟩

/-- Re-parsing a canonical position gives it back. -/
theorem asXY_rawOfPoint (p : CPoint) : asXY (rawOfPoint p) = some p := by
  rw [rawOfPoint, asXY]
  simp [round_intCast]

/-- Re-parsing a canonical position list gives it back. -/
theorem mapM_rawOfPoint (ps : List CPoint) :
    (ps.map rawOfPoint).mapM asXY = some ps := by
  induction ps with
  | nil => rfl
  | cons p rest ih =>
    rw [List.map_cons, List.mapM_cons, asXY_rawOfPoint, ih]
    rfl

/-- Re-parsing a canonical ring list gives it back. -/
theorem mapM2_rawOf (pss : List (List CPoint)) :
    (pss.map (fun ps => RawCoords.arr (ps.map rawOfPoint))).mapM asXYList =
      some pss := by
  induction pss with
  | nil => rfl
  | cons ps rest ih =>
    rw [List.map_cons, List.mapM_cons]
    have h1 : asXYList (.arr (ps.map rawOfPoint)) = some ps := mapM_rawOfPoint ps
    rw [h1, ih]
    rfl

/-- Re-parsing a canonical part list gives it back. -/
theorem mapM3_rawOf (psss : List (List (List CPoint))) :
    (psss.map (fun pss =>
        RawCoords.arr (pss.map (fun ps => RawCoords.arr (ps.map rawOfPoint))))).mapM
        asXYList2 = some psss := by
  induction psss with
  | nil => rfl
  | cons pss rest ih =>
    rw [List.map_cons, List.mapM_cons]
    have h1 : asXYList2
        (.arr (pss.map (fun ps => RawCoords.arr (ps.map rawOfPoint)))) =
        some pss := mapM2_rawOf pss
    rw [h1, ih]
    rfl

/-- The raw positions of a re-embedded position list. -/
theorem collectXYList_map_rawOfPoint (ps : List CPoint) :
    collectXYList (ps.map rawOfPoint) = ps.map castPt := by
  induction ps with
  | nil => rfl
  | cons p rest ih =>
    rw [List.map_cons, show collectXYList (rawOfPoint p :: rest.map rawOfPoint) =
      collectXY (rawOfPoint p) ++ collectXYList (rest.map rawOfPoint) from rfl, ih]
    rfl

/-- The raw positions of a re-embedded position list, wrapped in its array. -/
theorem collectXY_arr_map_rawOfPoint (ps : List CPoint) :
    collectXY (.arr (ps.map rawOfPoint)) = ps.map castPt := by
  cases ps with
  | nil => rfl
  | cons p rest =>
    rw [show collectXY (.arr ((p :: rest).map rawOfPoint)) =
      collectXYList ((p :: rest).map rawOfPoint) from rfl]
    exact collectXYList_map_rawOfPoint _

/-- The raw positions of a re-embedded ring list. -/
theorem collectXYList_map2_rawOf (pss : List (List CPoint)) :
    collectXYList (pss.map (fun ps => RawCoords.arr (ps.map rawOfPoint))) =
      pss.flatten.map castPt := by
  induction pss with
  | nil => rfl
  | cons ps rest ih =>
    rw [List.map_cons,
      show collectXYList (RawCoords.arr (ps.map rawOfPoint) ::
          rest.map (fun ps => RawCoords.arr (ps.map rawOfPoint))) =
        collectXY (.arr (ps.map rawOfPoint)) ++
          collectXYList (rest.map (fun ps => RawCoords.arr (ps.map rawOfPoint)))
        from rfl,
      collectXY_arr_map_rawOfPoint, ih, List.flatten_cons, List.map_append]

/-- The raw positions of a re-embedded ring list, wrapped in its array. -/
theorem collectXY_arr_map2_rawOf (pss : List (List CPoint)) :
    collectXY (.arr (pss.map (fun ps => RawCoords.arr (ps.map rawOfPoint)))) =
      pss.flatten.map castPt := by
  cases pss with
  | nil => rfl
  | cons ps rest =>
    rw [show collectXY (.arr ((ps :: rest).map
        (fun ps => RawCoords.arr (ps.map rawOfPoint)))) =
      collectXYList ((ps :: rest).map
        (fun ps => RawCoords.arr (ps.map rawOfPoint))) from rfl]
    exact collectXYList_map2_rawOf _

/-- The raw positions of a re-embedded part list, wrapped in its array. -/
theorem collectXY_arr_map3_rawOf (psss : List (List (List CPoint))) :
    collectXY (.arr (psss.map (fun pss =>
        RawCoords.arr (pss.map (fun ps => RawCoords.arr (ps.map rawOfPoint)))))) =
      psss.flatten.flatten.map castPt := by
  cases psss with
  | nil => rfl
  | cons pss rest =>
    rw [show collectXY (.arr ((pss :: rest).map (fun pss =>
          RawCoords.arr (pss.map (fun ps => RawCoords.arr (ps.map rawOfPoint)))))) =
        collectXYList ((pss :: rest).map (fun pss =>
          RawCoords.arr (pss.map (fun ps => RawCoords.arr (ps.map rawOfPoint)))))
        from rfl]
    induction (pss :: rest) with
    | nil => rfl
    | cons pss1 rest1 ih =>
      rw [List.map_cons,
        show collectXYList (RawCoords.arr (pss1.map
            (fun ps => RawCoords.arr (ps.map rawOfPoint))) ::
            rest1.map (fun pss => RawCoords.arr (pss.map
              (fun ps => RawCoords.arr (ps.map rawOfPoint))))) =
          collectXY (.arr (pss1.map (fun ps => RawCoords.arr (ps.map rawOfPoint)))) ++
            collectXYList (rest1.map (fun pss => RawCoords.arr (pss.map
              (fun ps => RawCoords.arr (ps.map rawOfPoint)))))
          from rfl,
        collectXY_arr_map2_rawOf, ih, List.flatten_cons, List.flatten_append,
        List.map_append]

/-- An array whose elements all parse as positions is not itself a position
leaf, so `collectXY` recurses into it. -/
theorem collectXY_arr_of_mapM1 (ys : List RawCoords) (ps : List CPoint)
    (h : ys.mapM asXY = some ps) : collectXY (.arr ys) = collectXYList ys := by
  cases ys with
  | nil => rfl
  | cons y ys' =>
    rw [List.mapM_cons] at h
    cases hy : asXY y with
    | none => rw [hy] at h; cases h
    | some p =>
      obtain ⟨x0, y0, rfl, -⟩ := asXY_some hy
      rfl

/-- An array whose elements all parse as position lists is not a position
leaf. -/
theorem collectXY_arr_of_mapM2 (ys : List RawCoords) (pss : List (List CPoint))
    (h : ys.mapM asXYList = some pss) :
    collectXY (.arr ys) = collectXYList ys := by
  cases ys with
  | nil => rfl
  | cons y ys' =>
    rw [List.mapM_cons] at h
    cases hy : asXYList y with
    | none => rw [hy] at h; cases h
    | some ps =>
      obtain ⟨zs, rfl, -⟩ := asXYList_some hy
      rfl

/-- An array whose elements all parse as level-2 lists is not a position
leaf. -/
theorem collectXY_arr_of_mapM3 (ys : List RawCoords)
    (psss : List (List (List CPoint))) (h : ys.mapM asXYList2 = some psss) :
    collectXY (.arr ys) = collectXYList ys := by
  cases ys with
  | nil => rfl
  | cons y ys' =>
    rw [List.mapM_cons] at h
    cases hy : asXYList2 y with
    | none => rw [hy] at h; cases h
    | some pss =>
      obtain ⟨zs, rfl, -⟩ := asXYList2_some hy
      rfl

/-- Integral raw values survive a round of rounding: the parsed whole-number
positions cast back to the original raw positions. -/
theorem collect_of_mapM1 (ys : List RawCoords) (ps : List CPoint)
    (h : ys.mapM asXY = some ps)
    (hint : ∀ p ∈ collectXYList ys,
      (∃ a : ℤ, p.1 = (a : ℚ)) ∧ ∃ b : ℤ, p.2 = (b : ℚ)) :
    collectXYList ys = ps.map castPt := by
  induction ys generalizing ps with
  | nil =>
    cases h
    rfl
  | cons y ys' ih =>
    rw [List.mapM_cons] at h
    cases hy : asXY y with
    | none => rw [hy] at h; cases h
    | some p =>
      rw [hy] at h
      cases hrest : ys'.mapM asXY with
      | none => rw [hrest] at h; cases h
      | some ps' =>
        rw [hrest] at h
        cases h
        obtain ⟨x0, y0, rfl, rfl⟩ := asXY_some hy
        have hcons : collectXYList (RawCoords.arr [.num x0, .num y0] :: ys') =
            (x0, y0) :: collectXYList ys' := rfl
        rw [hcons]
        have hmem : ((x0, y0) : ℚ × ℚ) ∈
            collectXYList (RawCoords.arr [.num x0, .num y0] :: ys') := by
          rw [hcons]; exact List.mem_cons_self _ _
        obtain ⟨⟨a, ha⟩, ⟨b, hb⟩⟩ := hint _ hmem
        have hx : castPt (round x0, round y0) = (x0, y0) := by
          rw [castPt]
          simp only at ha hb
          rw [ha, hb, round_intCast, round_intCast]
        rw [List.map_cons, hx, ih ps' hrest]
        intro p hp
        exact hint p (by rw [hcons]; exact List.mem_cons_of_mem _ hp)

/-- Level-2 version of `collect_of_mapM1`. -/
theorem collect_of_mapM2 (ys : List RawCoords) (pss : List (List CPoint))
    (h : ys.mapM asXYList = some pss)
    (hint : ∀ p ∈ collectXYList ys,
      (∃ a : ℤ, p.1 = (a : ℚ)) ∧ ∃ b : ℤ, p.2 = (b : ℚ)) :
    collectXYList ys = pss.flatten.map castPt := by
  induction ys generalizing pss with
  | nil =>
    cases h
    rfl
  | cons y ys' ih =>
    rw [List.mapM_cons] at h
    cases hy : asXYList y with
    | none => rw [hy] at h; cases h
    | some ps =>
      rw [hy] at h
      cases hrest : ys'.mapM asXYList with
      | none => rw [hrest] at h; cases h
      | some pss' =>
        rw [hrest] at h
        cases h
        obtain ⟨zs, rfl, hzs⟩ := asXYList_some hy
        have hcons : collectXYList (RawCoords.arr zs :: ys') =
            collectXY (.arr zs) ++ collectXYList ys' := rfl
        have hints : ∀ p ∈ collectXY (.arr zs) ++ collectXYList ys',
            (∃ a : ℤ, p.1 = (a : ℚ)) ∧ ∃ b : ℤ, p.2 = (b : ℚ) := by
          intro p hp
          exact hint p (by rw [hcons]; exact hp)
        rw [collectXY_arr_of_mapM1 zs ps hzs] at hints
        rw [hcons, collectXY_arr_of_mapM1 zs ps hzs]
        rw [collect_of_mapM1 zs ps hzs (fun p hp =>
            hints p (List.mem_append_left _ hp)),
          ih pss' hrest (fun p hp => hints p (List.mem_append_right _ hp)),
          List.flatten_cons, List.map_append]

/-- Level-3 version of `collect_of_mapM1`. -/
theorem collect_of_mapM3 (ys : List RawCoords)
    (psss : List (List (List CPoint))) (h : ys.mapM asXYList2 = some psss)
    (hint : ∀ p ∈ collectXYList ys,
      (∃ a : ℤ, p.1 = (a : ℚ)) ∧ ∃ b : ℤ, p.2 = (b : ℚ)) :
    collectXYList ys = psss.flatten.flatten.map castPt := by
  induction ys generalizing psss with
  | nil =>
    cases h
    rfl
  | cons y ys' ih =>
    rw [List.mapM_cons] at h
    cases hy : asXYList2 y with
    | none => rw [hy] at h; cases h
    | some pss =>
      rw [hy] at h
      cases hrest : ys'.mapM asXYList2 with
      | none => rw [hrest] at h; cases h
      | some psss' =>
        rw [hrest] at h
        cases h
        obtain ⟨zs, rfl, hzs⟩ := asXYList2_some hy
        have hcons : collectXYList (RawCoords.arr zs :: ys') =
            collectXY (.arr zs) ++ collectXYList ys' := rfl
        have hints : ∀ p ∈ collectXY (.arr zs) ++ collectXYList ys',
            (∃ a : ℤ, p.1 = (a : ℚ)) ∧ ∃ b : ℤ, p.2 = (b : ℚ) := by
          intro p hp
          exact hint p (by rw [hcons]; exact hp)
        rw [collectXY_arr_of_mapM2 zs pss hzs] at hints
        rw [hcons, collectXY_arr_of_mapM2 zs pss hzs]
        rw [collect_of_mapM2 zs pss hzs (fun p hp =>
            hints p (List.mem_append_left _ hp)),
          ih psss' hrest (fun p hp => hints p (List.mem_append_right _ hp)),
          List.flatten_cons, List.flatten_append, List.map_append]

/-- Equal raw position lists give equal envelopes. -/
theorem envelope_congr {rc1 rc2 : RawCoords}
    (h : collectXY rc1 = collectXY rc2) : envelope rc1 = envelope rc2 := by
  rw [envelope, envelope, h]

/-- Re-normalization only looks at the type tag and the re-embedded
coordinates. -/
theorem normalizeGeometry_rawOf (t : String) (bb : ℤ × ℤ × ℤ × ℤ)
    (cs : Coords) :
    normalizeGeometry (rawOfGeometry ⟨t, bb, cs⟩) =
      normalizeGeometry ⟨t, rawOfCoords cs⟩ := rfl

/-- C9 (amended): re-normalizing an already-normalized geometry reproduces the
whole geometry — bounding box included — whenever every raw coordinate is a
whole number; without that restriction the bbox can change, because the first
pass truncates the raw envelope while the second sees the envelope of the
rounded coordinates. -/
theorem claim_c9 (g : RawGeometry) (cg : Geometry)
    (h : normalizeGeometry g = .ok cg) (hint : IntegralCoords g.coordinates) :
    normalizeGeometry (rawOfGeometry cg) = .ok cg := by
  rw [normalizeGeometry] at h
  cases hu : unspooled_coordinates g with
  | error e => rw [hu] at h; cases h
  | ok cs =>
    rw [hu] at h
    cases h
    rw [normalizeGeometry_rawOf]
    by_cases h1 : g.type = "Point"
    · simp only [unspooled_coordinates, h1, if_true] at hu
      cases hxy : asXY g.coordinates with
      | none => rw [hxy] at hu; cases hu
      | some p =>
        rw [hxy] at hu
        cases hu
        obtain ⟨x0, y0, hco, hp⟩ := asXY_some hxy
        rw [show rawOfCoords (Coords.point p) = rawOfPoint p from rfl,
          normalizeGeometry]
        have hu2 : unspooled_coordinates ⟨g.type, rawOfPoint p⟩ =
            .ok (.point p) := by
          simp only [unspooled_coordinates, h1, if_true, asXY_rawOfPoint]
        rw [hu2]
        have hcollect : collectXY (rawOfPoint p) = collectXY g.coordinates := by
          rw [hco] at hint ⊢
          have horig : collectXY (RawCoords.arr [.num x0, .num y0]) =
              [(x0, y0)] := rfl
          obtain ⟨⟨a, ha⟩, ⟨b, hb⟩⟩ := hint (x0, y0) (by rw [horig]; simp)
          simp only at ha hb
          subst hp
          rw [horig, show collectXY (rawOfPoint (round x0, round y0)) =
              [castPt (round x0, round y0)] from rfl,
            castPt, ha, hb, round_intCast, round_intCast]
        have henv : envelope ((⟨g.type, rawOfPoint p⟩ :
            RawGeometry).coordinates) = envelope g.coordinates :=
          envelope_congr hcollect
        rw [henv]
    · by_cases h2 : g.type = "MultiPoint" ∨ g.type = "LineString"
      · simp only [unspooled_coordinates, h1, if_false, h2, if_true] at hu
        cases hxy : asXYList g.coordinates with
        | none => rw [hxy] at hu; cases hu
        | some ps =>
          rw [hxy] at hu
          cases hu
          obtain ⟨ys, hco, hys⟩ := asXYList_some hxy
          rw [show rawOfCoords (Coords.seq ps) = .arr (ps.map rawOfPoint)
            from rfl, normalizeGeometry]
          have hu2 : unspooled_coordinates
              ⟨g.type, .arr (ps.map rawOfPoint)⟩ = .ok (.seq ps) := by
            simp only [unspooled_coordinates, h1, if_false, h2, if_true]
            rw [show asXYList (.arr (ps.map rawOfPoint)) =
              (ps.map rawOfPoint).mapM asXY from rfl, mapM_rawOfPoint]
          rw [hu2]
          have hcollect : collectXY (RawCoords.arr (ps.map rawOfPoint)) =
              collectXY g.coordinates := by
            rw [hco] at hint ⊢
            have hint2 : ∀ p ∈ collectXYList ys,
                (∃ a : ℤ, p.1 = (a : ℚ)) ∧ ∃ b : ℤ, p.2 = (b : ℚ) := by
              rw [← collectXY_arr_of_mapM1 ys ps hys]
              exact hint
            rw [collectXY_arr_of_mapM1 ys ps hys,
              collectXY_arr_map_rawOfPoint, collect_of_mapM1 ys ps hys hint2]
          have henv : envelope ((⟨g.type, .arr (ps.map rawOfPoint)⟩ :
              RawGeometry).coordinates) = envelope g.coordinates :=
            envelope_congr hcollect
          rw [henv]
      · by_cases h3 : g.type = "MultiLineString" ∨ g.type = "Polygon"
        · simp only [unspooled_coordinates, h1, if_false, h2, h3,
            if_true] at hu
          cases hxy : asXYList2 g.coordinates with
          | none => rw [hxy] at hu; cases hu
          | some pss =>
            rw [hxy] at hu
            cases hu
            obtain ⟨ys, hco, hys⟩ := asXYList2_some hxy
            rw [show rawOfCoords (Coords.seq2 pss) =
              .arr (pss.map (fun ps => RawCoords.arr (ps.map rawOfPoint)))
              from rfl, normalizeGeometry]
            have hu2 : unspooled_coordinates
                ⟨g.type, .arr (pss.map
                  (fun ps => RawCoords.arr (ps.map rawOfPoint)))⟩ =
                .ok (.seq2 pss) := by
              simp only [unspooled_coordinates, h1, if_false, h2, h3, if_true]
              rw [show asXYList2 (.arr (pss.map
                  (fun ps => RawCoords.arr (ps.map rawOfPoint)))) =
                (pss.map (fun ps => RawCoords.arr (ps.map rawOfPoint))).mapM
                  asXYList from rfl, mapM2_rawOf]
            rw [hu2]
            have hcollect : collectXY (RawCoords.arr (pss.map
                (fun ps => RawCoords.arr (ps.map rawOfPoint)))) =
                collectXY g.coordinates := by
              rw [hco] at hint ⊢
              have hint2 : ∀ p ∈ collectXYList ys,
                  (∃ a : ℤ, p.1 = (a : ℚ)) ∧ ∃ b : ℤ, p.2 = (b : ℚ) := by
                rw [← collectXY_arr_of_mapM2 ys pss hys]
                exact hint
              rw [collectXY_arr_of_mapM2 ys pss hys,
                collectXY_arr_map2_rawOf, collect_of_mapM2 ys pss hys hint2]
            have henv : envelope ((⟨g.type, .arr (pss.map
                (fun ps => RawCoords.arr (ps.map rawOfPoint)))⟩ :
                RawGeometry).coordinates) = envelope g.coordinates :=
              envelope_congr hcollect
            rw [henv]
        · by_cases h4 : g.type = "MultiPolygon"
          · simp only [unspooled_coordinates, h4, String.reduceEq, if_false,
              if_true, or_self, or_false, false_or] at hu
            cases hxy : asXYList3 g.coordinates with
            | none => rw [hxy] at hu; cases hu
            | some psss =>
              rw [hxy] at hu
              cases hu
              obtain ⟨ys, hco, hys⟩ := asXYList3_some hxy
              rw [show rawOfCoords (Coords.seq3 psss) =
                .arr (psss.map (fun pss => RawCoords.arr (pss.map
                  (fun ps => RawCoords.arr (ps.map rawOfPoint)))))
                from rfl, normalizeGeometry]
              have hu2 : unspooled_coordinates
                  ⟨g.type, .arr (psss.map (fun pss => RawCoords.arr (pss.map
                    (fun ps => RawCoords.arr (ps.map rawOfPoint)))))⟩ =
                  .ok (.seq3 psss) := by
                simp only [unspooled_coordinates, h4, String.reduceEq,
                  if_false, if_true, or_self, or_false, false_or]
                rw [show asXYList3 (.arr (psss.map (fun pss =>
                    RawCoords.arr (pss.map
                      (fun ps => RawCoords.arr (ps.map rawOfPoint)))))) =
                  (psss.map (fun pss => RawCoords.arr (pss.map
                    (fun ps => RawCoords.arr (ps.map rawOfPoint))))).mapM
                    asXYList2 from rfl, mapM3_rawOf]
              rw [hu2]
              have hcollect : collectXY (RawCoords.arr (psss.map
                  (fun pss => RawCoords.arr (pss.map
                    (fun ps => RawCoords.arr (ps.map rawOfPoint)))))) =
                  collectXY g.coordinates := by
                rw [hco] at hint ⊢
                have hint2 : ∀ p ∈ collectXYList ys,
                    (∃ a : ℤ, p.1 = (a : ℚ)) ∧ ∃ b : ℤ, p.2 = (b : ℚ) := by
                  rw [← collectXY_arr_of_mapM3 ys psss hys]
                  exact hint
                rw [collectXY_arr_of_mapM3 ys psss hys,
                  collectXY_arr_map3_rawOf, collect_of_mapM3 ys psss hys hint2]
              have henv : envelope ((⟨g.type, .arr (psss.map
                  (fun pss => RawCoords.arr (pss.map
                    (fun ps => RawCoords.arr (ps.map rawOfPoint)))))⟩ :
                  RawGeometry).coordinates) = envelope g.coordinates :=
                envelope_congr hcollect
              rw [henv]
          · simp only [unspooled_coordinates, h1, if_false, h2, h3, h4] at hu
            cases hu

/-- Witness for C9: the whole-coordinate raw point `(2, 3)` re-normalizes to
its own canonical form. -/
theorem claim_c9_witness :
    normalizeGeometry
        (rawOfGeometry ⟨"Point", (2, 2, 3, 3), .point (2, 3)⟩) =
      .ok ⟨"Point", (2, 2, 3, 3), .point (2, 3)⟩ := by
  refine claim_c9 (rawPoint 2 3) ⟨"Point", (2, 2, 3, 3), .point (2, 3)⟩ ?_ ?_
  · rw [normalize_rawPoint]
    norm_num [pyInt, round_eq, Int.floor_eq_iff]
  · intro p hp
    rw [show collectXY (rawPoint 2 3).coordinates = [((2 : ℚ), (3 : ℚ))]
      from rfl] at hp
    simp only [List.mem_singleton] at hp
    subst hp
    exact ⟨⟨2, by norm_num⟩, ⟨3, by norm_num⟩⟩

/-- Counterexample to C9 as stated: normalizing the raw point `(0.6, 0.6)`
gives bbox `(0, 0, 0, 0)` with coordinates `(1, 1)`; normalizing that result
again gives bbox `(1, 1, 1, 1)`, so `normalize (normalize g) ≠ normalize g`. -/
theorem claim_c9_counterexample :
    normalizeGeometry (rawPoint (3/5) (3/5)) =
      .ok ⟨"Point", (0, 0, 0, 0), .point (1, 1)⟩ ∧
    normalizeGeometry (rawOfGeometry ⟨"Point", (0, 0, 0, 0), .point (1, 1)⟩) =
      .ok ⟨"Point", (1, 1, 1, 1), .point (1, 1)⟩ ∧
    (⟨"Point", (1, 1, 1, 1), .point (1, 1)⟩ : Geometry) ≠
      ⟨"Point", (0, 0, 0, 0), .point (1, 1)⟩ := by
  refine ⟨?_, ?_, ?_⟩
  · rw [normalize_rawPoint]
    norm_num [pyInt, Int.floor_eq_iff, round_eq]
  · rw [show rawOfGeometry ⟨"Point", (0, 0, 0, 0), .point (1, 1)⟩ =
      rawPoint 1 1 from rfl, normalize_rawPoint]
    norm_num [pyInt, Int.floor_eq_iff, round_eq]
  · intro hq
    have := congrArg (fun cg => cg.bbox.1) hq
    simp only at this
    norm_num at this

/-! ## Identity diff (claim C8)

On the identity instance `a = b = S` the main loop of `find_longest_match`
keeps its best match on the diagonal: every `j2len` chain value is dominated
by the diagonal run `diagRun`, the diagonal key is exact, and within one
iteration the diagonal key `j = i` is processed before every `j > i` (the
occurrence lists are ascending), so only diagonal updates can win.  The
non-junk extension loops then stretch the diagonal match to the full window,
no matter how autojunk thinned the index. -/

theorem mem_b2jAll {b : List α} {x : α} {j : Nat} :
    j ∈ b2jAll b x ↔ j < b.length ∧ b.get? j = some x := by
  rw [b2jAll, List.mem_filter, List.mem_range]
  simp

theorem b2jAll_sorted (b : List α) (x : α) :
    (b2jAll b x).Pairwise (· < ·) :=
  List.Pairwise.sublist (List.filter_sublist _) (List.pairwise_lt_range _)

theorem diagRun_le (S : List α) (j : Nat) : diagRun S j ≤ j + 1 := by
  induction j with
  | zero => rw [diagRun]; split <;> omega
  | succ j ih => rw [diagRun]; split <;> omega

theorem diagRun_inactive {S : List α} {j : Nat} (h : activeAt S j = false) :
    diagRun S j = 0 := by
  cases j with
  | zero => rw [diagRun, h]; rfl
  | succ j => rw [diagRun, h]; rfl

theorem diagRun_active {S : List α} {j : Nat} (h : activeAt S j = true) :
    diagRun S j = (if j = 0 then 0 else diagRun S (j - 1)) + 1 := by
  cases j with
  | zero => rw [diagRun, h, if_pos rfl]; rfl
  | succ j => rw [diagRun, h, if_neg (Nat.succ_ne_zero j)]; rfl

/-- `innerLoop` equation: empty occurrence list. -/
theorem innerLoop_nil (i blo bhi : Nat) (m acc : Nat → Nat)
    (best : Nat × Nat × Nat) :
    innerLoop i blo bhi m [] acc best = (acc, best) := rfl

/-- `innerLoop` equation: one occurrence processed. -/
theorem innerLoop_cons (i blo bhi : Nat) (m : Nat → Nat) (j : Nat)
    (js : List Nat) (acc : Nat → Nat) (best : Nat × Nat × Nat) :
    innerLoop i blo bhi m (j :: js) acc best =
      if j < blo then innerLoop i blo bhi m js acc best
      else if bhi ≤ j then (acc, best)
      else innerLoop i blo bhi m js
        (fun j' => if j' = j then kVal m j else acc j')
        (bestStep m i best j) := rfl

/-- With `blo = 0` and all occurrences inside the window, the inner loop
writes exactly the `kVal` entries into `newj2len`. -/
theorem innerLoop_acc (i bhi : Nat) (m : Nat → Nat) :
    ∀ (js : List Nat) (acc : Nat → Nat) (best : Nat × Nat × Nat),
      (∀ j ∈ js, j < bhi) →
      (innerLoop i 0 bhi m js acc best).1 =
        fun j' => if j' ∈ js then kVal m j' else acc j' := by
  intro js
  induction js with
  | nil =>
    intro acc best _
    funext j'
    rw [innerLoop_nil]
    simp
  | cons j js ih =>
    intro acc best h
    have hj : j < bhi := h j (List.mem_cons_self j js)
    rw [innerLoop_cons, if_neg (Nat.not_lt_zero j), if_neg (not_le.mpr hj),
      ih _ _ (fun j2 h2 => h j2 (List.mem_cons_of_mem j h2))]
    funext j'
    by_cases h1 : j' ∈ js
    · simp [h1, List.mem_cons]
    · by_cases h2 : j' = j
      · subst h2
        simp [h1, List.mem_cons]
      · simp [h1, h2, List.mem_cons]

/-- With `blo = 0` and all occurrences inside the window, the inner loop's
best-match update is a plain fold of `bestStep`. -/
theorem innerLoop_best (i bhi : Nat) (m : Nat → Nat) :
    ∀ (js : List Nat) (acc : Nat → Nat) (best : Nat × Nat × Nat),
      (∀ j ∈ js, j < bhi) →
      (innerLoop i 0 bhi m js acc best).2 = js.foldl (bestStep m i) best := by
  intro js
  induction js with
  | nil =>
    intro acc best _
    rw [innerLoop_nil, List.foldl_nil]
  | cons j js ih =>
    intro acc best h
    have hj : j < bhi := h j (List.mem_cons_self j js)
    rw [innerLoop_cons, if_neg (Nat.not_lt_zero j), if_neg (not_le.mpr hj),
      List.foldl_cons, ih _ _ (fun j2 h2 => h j2 (List.mem_cons_of_mem j h2))]

/-- A fold of `bestStep` over keys whose chain values never beat the current
best leaves the best unchanged. -/
theorem foldl_bestStep_no_update (m : Nat → Nat) (i : Nat) :
    ∀ (js : List Nat) (b : Nat × Nat × Nat),
      (∀ j ∈ js, kVal m j ≤ b.2.2) → js.foldl (bestStep m i) b = b := by
  intro js
  induction js with
  | nil => intro b _; rfl
  | cons j js ih =>
    intro b h
    rw [List.foldl_cons,
      show bestStep m i b j = b by
        rw [bestStep, if_neg (not_lt.mpr (h j (List.mem_cons_self j js)))]]
    exact ih b (fun j2 h2 => h j2 (List.mem_cons_of_mem j h2))

/-- An ascending occurrence list splits around a member. -/
theorem sorted_mem_split {js : List Nat} (hs : js.Pairwise (· < ·)) {t : Nat}
    (htm : t ∈ js) :
    ∃ L R, js = L ++ t :: R ∧ (∀ j ∈ L, j < t) ∧ ∀ j ∈ R, t < j := by
  obtain ⟨L, R, rfl⟩ := List.append_of_mem htm
  rw [List.pairwise_append] at hs
  obtain ⟨-, hR, hLR⟩ := hs
  refine ⟨L, R, rfl, ?_, ?_⟩
  · exact fun j hj => hLR j hj t (List.mem_cons_self t R)
  · exact fun j hj => (List.pairwise_cons.mp hR).1 j hj

/-- One outer iteration of the `find_longest_match` main loop preserves the
identity-instance invariant. -/
theorem step_inv (S : List α) (t : Nat) (m : Nat → Nat)
    (best : Nat × Nat × Nat) (hInv : SelfInv S t m best) (ht : t < S.length) :
    SelfInv S (t + 1)
      (innerLoop t 0 S.length m
        (match S.get? t with
          | some x => b2j S x
          | none => []) (fun _ => 0) best).1
      (innerLoop t 0 S.length m
        (match S.get? t with
          | some x => b2j S x
          | none => []) (fun _ => 0) best).2 := by
  obtain ⟨x, hx⟩ : ∃ x, S.get? t = some x := by
    cases hs : S.get? t with
    | none => exact absurd (List.get?_eq_none.mp hs) (by omega)
    | some y => exact ⟨y, rfl⟩
  rw [hx]
  show SelfInv S (t + 1)
    (innerLoop t 0 S.length m (b2j S x) (fun _ => 0) best).1
    (innerLoop t 0 S.length m (b2j S x) (fun _ => 0) best).2
  obtain ⟨i1, i2, i3, i4, i5, i6⟩ := hInv
  by_cases hpop : isPopular S x
  · -- the element at `t` was purged by autojunk: no occurrences this round
    have hjs : b2j S x = [] := by rw [b2j, if_pos hpop]
    have hact : activeAt S t = false := by
      rw [activeAt, hx]
      show (!isPopular S x) = false
      rw [hpop]
      rfl
    have hd0 : diagRun S t = 0 := diagRun_inactive hact
    rw [hjs, innerLoop_nil]
    dsimp only
    refine ⟨i1, by omega, ?_, ?_, ?_, ?_⟩
    · intro j hj
      by_cases hjt : j = t
      · rw [hjt, hd0]
        exact Nat.zero_le _
      · exact i3 j (by omega)
    · intro j
      exact Nat.zero_le _
    · intro j
      exact Nat.zero_le _
    · intro j hj
      have hjt : j = t := by omega
      rw [hjt, hd0]
  · -- the element at `t` is indexed: its ascending occurrence list holds `t`
    have hpf : isPopular S x = false := by
      revert hpop
      cases isPopular S x <;> simp
    have hjs : b2j S x = b2jAll S x := by rw [b2j, if_neg hpop]
    have hact : activeAt S t = true := by
      rw [activeAt, hx]
      show (!isPopular S x) = true
      rw [hpf]
      rfl
    rw [hjs]
    have hmemt : t ∈ b2jAll S x := mem_b2jAll.mpr ⟨ht, hx⟩
    have hbound : ∀ j ∈ b2jAll S x, j < S.length :=
      fun j hj => (mem_b2jAll.mp hj).1
    have hactj : ∀ j ∈ b2jAll S x, activeAt S j = true := by
      intro j hj
      rw [activeAt, (mem_b2jAll.mp hj).2]
      show (!isPopular S x) = true
      rw [hpf]
      rfl
    rw [innerLoop_acc t S.length m _ _ _ hbound,
      innerLoop_best t S.length m _ _ _ hbound]
    have hK : kVal m t = diagRun S t := by
      rw [kVal, diagRun_active hact]
      split_ifs with h0
      · rfl
      · rw [i6 (t - 1) (by omega)]
    have f2 : ∀ j ∈ b2jAll S x, kVal m j ≤ diagRun S j := by
      intro j hj
      rw [kVal, diagRun_active (hactj j hj)]
      split_ifs with h0
      · exact le_rfl
      · exact Nat.add_le_add_right (i4 (j - 1)) 1
    have f3 : ∀ j ∈ b2jAll S x, kVal m j ≤ diagRun S t := by
      intro j hj
      rw [kVal, diagRun_active hact]
      by_cases h0 : j = 0
      · rw [if_pos h0]
        exact Nat.add_le_add_right (Nat.zero_le _) 1
      · rw [if_neg h0]
        exact Nat.add_le_add_right (i5 (j - 1)) 1
    obtain ⟨L, R, hsplit, hL, hR⟩ :=
      sorted_mem_split (b2jAll_sorted S x) hmemt
    have hfold : (b2jAll S x).foldl (bestStep m t) best =
        bestStep m t best t := by
      rw [hsplit, List.foldl_append, List.foldl_cons,
        foldl_bestStep_no_update m t L best (fun j hj =>
          le_trans (f2 j (by rw [hsplit]; exact List.mem_append_left _ hj))
            (i3 j (hL j hj)))]
      exact foldl_bestStep_no_update m t R _ (fun j hj =>
        le_trans (f3 j (by
          rw [hsplit]
          exact List.mem_append_right _ (List.mem_cons_of_mem t hj)))
          (by
            rw [bestStep]
            split_ifs with hlt
            · exact le_of_eq hK.symm
            · rw [← hK]
              exact not_lt.mp hlt))
    rw [hfold]
    have hmono : best.2.2 ≤ (bestStep m t best t).2.2 := by
      rw [bestStep]
      split_ifs with hlt
      · exact le_of_lt hlt
      · exact le_rfl
    have hge : diagRun S t ≤ (bestStep m t best t).2.2 := by
      rw [bestStep]
      split_ifs with hlt
      · exact le_of_eq hK.symm
      · rw [← hK]
        exact not_lt.mp hlt
    refine ⟨?_, ?_, ?_, ?_, ?_, ?_⟩
    · rw [bestStep]
      split_ifs with hlt
      · rfl
      · exact i1
    · rw [bestStep]
      split_ifs with hlt
      · have hKle : kVal m t ≤ t + 1 := by
          rw [hK]
          exact diagRun_le S t
        simp only
        omega
      · omega
    · intro j hj
      by_cases hjt : j = t
      · rw [hjt]
        exact hge
      · exact le_trans (i3 j (by omega)) hmono
    · intro j
      by_cases hmem : j ∈ b2jAll S x
      · simp only [hmem, if_true]
        exact f2 j hmem
      · simp only [hmem, if_false]
        exact Nat.zero_le _
    · intro j
      rw [if_neg (Nat.succ_ne_zero t), Nat.add_sub_cancel]
      by_cases hmem : j ∈ b2jAll S x
      · simp only [hmem, if_true]
        exact f3 j hmem
      · simp only [hmem, if_false]
        exact Nat.zero_le _
    · intro j hj
      have hjt : j = t := by omega
      rw [hjt]
      simp only [hmemt, if_true]
      exact hK

/-- The invariant holds before the first outer iteration. -/
theorem selfInv_init (S : List α) : SelfInv S 0 (fun _ => 0) (0, 0, 0) := by
  refine ⟨rfl, by decide, ?_, ?_, ?_, ?_⟩
  · intro j hj
    omega
  · intro j
    exact Nat.zero_le _
  · intro j
    exact Nat.zero_le _
  · intro j hj
    omega

/-- `outerLoop` equation: nothing left to process. -/
theorem outerLoop_nil (a : List α) (bj : α → List Nat) (blo bhi : Nat)
    (m : Nat → Nat) (best : Nat × Nat × Nat) :
    outerLoop a bj blo bhi [] m best = best := rfl

/-- `outerLoop` equation: one outer index processed. -/
theorem outerLoop_cons (a : List α) (bj : α → List Nat) (blo bhi i : Nat)
    (is : List Nat) (m : Nat → Nat) (best : Nat × Nat × Nat) :
    outerLoop a bj blo bhi (i :: is) m best =
      outerLoop a bj blo bhi is
        (innerLoop i blo bhi m
          (match a.get? i with
            | some x => bj x
            | none => []) (fun _ => 0) best).1
        (innerLoop i blo bhi m
          (match a.get? i with
            | some x => bj x
            | none => []) (fun _ => 0) best).2 := rfl

/-- After the whole main loop on the identity instance, the best match is
diagonal and fits inside the sequence. -/
theorem outer_inv (S : List α) :
    ∀ (d t : Nat) (m : Nat → Nat) (best : Nat × Nat × Nat),
      t + d = S.length → SelfInv S t m best →
      (outerLoop S (b2j S) 0 S.length (List.range' t d) m best).1 =
          (outerLoop S (b2j S) 0 S.length (List.range' t d) m best).2.1 ∧
        (outerLoop S (b2j S) 0 S.length (List.range' t d) m best).1 +
          (outerLoop S (b2j S) 0 S.length (List.range' t d) m best).2.2 ≤
            S.length := by
  intro d
  induction d with
  | zero =>
    intro t m best ht hInv
    rw [show List.range' t 0 = [] from rfl, outerLoop_nil]
    exact ⟨hInv.1, by have := hInv.2.1; omega⟩
  | succ d ih =>
    intro t m best ht hInv
    rw [List.range'_succ, outerLoop_cons]
    exact ih (t + 1) _ _ (by omega) (step_inv S t m best hInv (by omega))

/-- The non-junk backward extension loop on the identity instance drags a
diagonal match all the way to the window start. -/
theorem extendBack_self (S : List α) :
    ∀ (fuel bi bs : Nat), bi ≤ fuel → bi + bs ≤ S.length →
      extendBack S S (fun _ => false) false 0 0 fuel (bi, bi, bs) =
        (0, 0, bi + bs) := by
  intro fuel
  induction fuel with
  | zero =>
    intro bi bs hbi _
    have : bi = 0 := by omega
    subst this
    rw [Nat.zero_add]
    rfl
  | succ fuel ih =>
    intro bi bs hbi hle
    cases bi with
    | zero =>
      rw [extendBack, if_neg (by omega), Nat.zero_add]
    | succ bi =>
      rw [extendBack, if_pos ⟨Nat.succ_pos bi, Nat.succ_pos bi⟩]
      have hbil : bi < S.length := by omega
      obtain ⟨y, hy⟩ : ∃ y, S.get? (bi + 1 - 1) = some y := by
        cases hs : S.get? (bi + 1 - 1) with
        | none =>
          exact absurd (List.get?_eq_none.mp hs) (by simp; omega)
        | some y => exact ⟨y, rfl⟩
      rw [hy]
      show (if (false = false ∧ y = y) then
          extendBack S S (fun _ => false) false 0 0 fuel (bi, bi, bs + 1)
        else (bi + 1, bi + 1, bs)) = (0, 0, bi + 1 + bs)
      rw [if_pos ⟨rfl, rfl⟩, ih bi (bs + 1) (by omega) (by omega),
        show bi + (bs + 1) = bi + 1 + bs by omega]

/-- The non-junk forward extension loop on the identity instance drags a
prefix match to the window end. -/
theorem extendFwd_self (S : List α) :
    ∀ (fuel ts : Nat), ts ≤ S.length → S.length - ts ≤ fuel →
      extendFwd S S (fun _ => false) false S.length S.length fuel (0, 0, ts) =
        (0, 0, S.length) := by
  intro fuel
  induction fuel with
  | zero =>
    intro ts hts hfuel
    have : ts = S.length := by omega
    subst this
    rfl
  | succ fuel ih =>
    intro ts hts hfuel
    by_cases hlt : ts < S.length
    · rw [extendFwd, if_pos ⟨by omega, by omega⟩]
      obtain ⟨y, hy⟩ : ∃ y, S.get? (0 + ts) = some y := by
        cases hs : S.get? (0 + ts) with
        | none =>
          exact absurd (List.get?_eq_none.mp hs) (by simp; omega)
        | some y => exact ⟨y, rfl⟩
      rw [hy]
      show (if (false = false ∧ y = y) then
          extendFwd S S (fun _ => false) false S.length S.length fuel
            (0, 0, ts + 1)
        else (0, 0, ts)) = (0, 0, S.length)
      rw [if_pos ⟨rfl, rfl⟩]
      exact ih (ts + 1) (by omega) (by omega)
    · have : ts = S.length := by omega
      subst this
      rw [extendFwd, if_neg (by omega)]

/-- `find_longest_match` on the identity instance returns the whole window. -/
theorem flm_self (S : List α) :
    findLongestMatch S S (b2j S) (fun _ => false) 0 S.length 0 S.length =
      (0, 0, S.length) := by
  rw [findLongestMatch]
  rcases hb0 : outerLoop S (b2j S) 0 S.length (List.range' 0 (S.length - 0))
      (fun _ => 0) (0, 0, 0) with ⟨p, q, s⟩
  have h0 := outer_inv S (S.length - 0) 0 (fun _ => 0) (0, 0, 0) (by omega)
    (selfInv_init S)
  rw [hb0] at h0
  simp only at h0
  obtain ⟨hpq, hps⟩ := h0
  subst hpq
  simp only [hb0]
  have e1 : extendBack S S (fun _ => false) false 0 0 p (p, p, s) =
      (0, 0, p + s) := extendBack_self S p p s le_rfl hps
  simp only [e1]
  have e2 : extendFwd S S (fun _ => false) false S.length S.length
      (S.length - (0 + (p + s))) (0, 0, p + s) = (0, 0, S.length) :=
    extendFwd_self S (S.length - (0 + (p + s))) (p + s) hps (by omega)
  simp only [e2]
  have e3 : extendBack S S (fun _ => false) true 0 0 0 (0, 0, S.length) =
      (0, 0, S.length) := rfl
  simp only [e3]
  rw [show S.length - (0 + S.length) = 0 by omega]
  rfl

/-- `get_matching_blocks` on the identity instance: the whole sequence as one
block, plus the sentinel. -/
theorem getMatchingBlocks_self (S : List α) :
    getMatchingBlocks S S =
      if S.length = 0 then [(0, 0, 0)]
      else [(0, 0, S.length), (S.length, S.length, 0)] := by
  rw [getMatchingBlocks]
  rw [show S.length + 1 = Nat.succ S.length from rfl, matchBlocksRec]
  simp only [flm_self]
  by_cases hn : S.length = 0
  · rw [if_pos hn, if_pos hn, hn]
    rfl
  · rw [if_neg hn, if_neg hn, if_neg (by omega : ¬((0 : Nat) < 0 ∧ (0 : Nat) < 0)),
      if_neg (by omega : ¬(0 + S.length < S.length ∧ 0 + S.length < S.length))]
    rw [show ([] : List (Nat × Nat × Nat)) ++ [((0 : Nat), (0 : Nat), S.length)] ++ [] =
      [(0, 0, S.length)] by simp]
    rw [mergeBlocks, if_pos ⟨rfl, rfl⟩, mergeBlocks,
      if_pos (by omega : 0 + S.length ≠ 0)]
    simp

/-- `get_opcodes` on the identity instance: one `equal` opcode (or none for
empty sequences). -/
theorem getOpcodes_self (S : List α) :
    getOpcodes S S =
      if S.length = 0 then []
      else [⟨Tag.equal, 0, S.length, 0, S.length⟩] := by
  rw [getOpcodes, getMatchingBlocks_self]
  by_cases hn : S.length = 0
  · rw [if_pos hn, if_pos hn]
    rfl
  · rw [if_neg hn, if_neg hn]
    simp only [opcodesLoop, Nat.zero_add]
    simp [hn]

/-- C8: aligning any feature sequence against an identical copy of itself
yields opcodes that are entirely `equal`, and the classifier then emits zero
ChangeRecords and empty added/removed feature lists — even when autojunk
(`len(b) >= 200`) empties the occurrence index, because the non-junk
extension loops of `find_longest_match` still grow the diagonal match over
the whole window. -/
theorem claim_c8 (S : List Feature) :
    (∀ op ∈ getOpcodes S S, op.tag = Tag.equal) ∧
    runDiff S S = ⟨[], [], []⟩ := by
  constructor
  · intro op hop
    rw [getOpcodes_self] at hop
    by_cases hn : S.length = 0
    · rw [if_pos hn] at hop
      cases hop
    · rw [if_neg hn, List.mem_singleton] at hop
      rw [hop]
  · rw [runDiff_eq, processedOpcodes, getOpcodes_self]
    by_cases hn : S.length = 0
    · rw [if_pos hn]
      rfl
    · rw [if_neg hn]
      rfl

end DiffShps
